import Mathlib

/-!
Shallow embedding of the TSN CBS/TAS configuration-inference programs
(`cbs-estimator.c`, `tas-estimator.c`, `tsn-verify.c`): per-class sample
stores, burst segmentation, CBS analysis, cycle detection, gate-window
detection and GCL construction, together with theorems checking the design
document's claims against these definitions.

Conventions used throughout:
* `uint64_t` subtraction is modelled by `u64sub` (wrap-around modulo `2 ^ 64`);
* C `double` arithmetic is modelled over `ℚ` (exact arithmetic, an
  idealisation of IEEE doubles; every comparison proved here is far from a
  rounding knife edge, and the sole `double` constants involved, `0.3`,
  `0.85`, `1e3`, `1e6`, `1e9`, enter only through such comparisons);
* a C array together with its element count is modelled as a `List` whose
  length is the count;
* an `(int)` cast of a nonnegative `double` is modelled by `Nat.floor`.
-/

namespace TsnModel

/-- One captured observation, `packet_t`: timestamp and wire length.
(The `tc` member of `cbs-estimator.c`'s `packet_t` only echoes the index of
the per-class store the packet sits in and is never read; it is omitted.) -/
structure Packet where
  ts_ns : Nat
  len : Nat
deriving Repr, DecidableEq

/-- A detected burst, `burst_t`. -/
structure Burst where
  start_ns : Nat
  end_ns : Nat
  bytes : Nat
  packets : Nat
deriving Repr, DecidableEq

/-- Wrap-around `uint64_t` subtraction `a - b` (two's complement, mod `2^64`). -/
def u64sub (a b : Nat) : Nat := (a + 2 ^ 64 - b) % 2 ^ 64

theorem u64sub_eq_sub {a b : Nat} (h : b ≤ a) (h2 : a - b < 2 ^ 64) :
    u64sub a b = a - b := by
  have : a + 2 ^ 64 - b = (a - b) + 2 ^ 64 := by omega
  rw [u64sub, this, Nat.add_mod_right, Nat.mod_eq_of_lt h2]

end TsnModel

namespace CbsEstimator

open TsnModel

/-- `MAX_PACKETS` of `cbs-estimator.c`. -/
def MAX_PACKETS : Nat := 100000

/-- `MAX_BURSTS` of `cbs-estimator.c`. -/
def MAX_BURSTS : Nat := 10000

/-- `BURST_GAP_THRESHOLD_US * 1000`: the burst gap threshold in nanoseconds. -/
def GAP_THRESHOLD_NS : Nat := 500 * 1000

/-- Per-class store and analysis record, `tc_analysis_t`.  The packet and
burst arrays plus their counts are modelled as lists (`packet_count =
packets.length`, `burst_count = bursts.length`); the `double` statistics
fields are modelled over `ℚ`.  All fields start zeroed, as after `memset`. -/
structure TcAnalysis where
  packets : List Packet := []
  bursts : List Burst := []
  total_bytes : Nat := 0
  first_ts : Nat := 0
  last_ts : Nat := 0
  measured_bps : ℚ := 0
  estimated_idle_slope : ℚ := 0
  burst_ratio : ℚ := 0
  is_shaped : Bool := false
  avg_burst_duration_us : ℚ := 0
  avg_gap_duration_us : ℚ := 0
  max_burst_bytes : ℚ := 0
deriving Repr, DecidableEq

/-- The store-append step of `packet_handler` (the part past the VLAN filter,
under the mutex): append the observation and update the aggregates if the
capacity `MAX_PACKETS` is not yet reached, else leave the store untouched. -/
def packet_handler (tc : TcAnalysis) (p : Packet) : TcAnalysis :=
  if tc.packets.length < MAX_PACKETS then
    { tc with
      packets := tc.packets ++ [p]
      total_bytes := tc.total_bytes + p.len
      first_ts := if tc.first_ts = 0 then p.ts_ns else tc.first_ts
      last_ts := p.ts_ns }
  else tc

/-- The loop of `detect_bursts` (`cbs-estimator.c` variant): walk the
remaining packets carrying the previous timestamp, the open burst
(`curStart`, `curBytes`, `curPkts`), the burst count `bc` and the closed
bursts (in reverse).  A gap above the threshold closes the current burst at
the previous timestamp and opens a new one, but only while `bc < maxB`;
otherwise the current burst is extended.  At the end the open burst is
closed at the last timestamp seen. -/
def detectBurstsGo (thr maxB : Nat) :
    List Packet → Nat → Nat → Nat → Nat → Nat → List Burst → List Burst
  | [], prevTs, curStart, curBytes, curPkts, _bc, closed =>
      ((⟨curStart, prevTs, curBytes, curPkts⟩ : Burst) :: closed).reverse
  | p :: rest, prevTs, curStart, curBytes, curPkts, bc, closed =>
      let gap := u64sub p.ts_ns prevTs
      if gap > thr ∧ bc < maxB then
        detectBurstsGo thr maxB rest p.ts_ns p.ts_ns p.len 1 (bc + 1)
          ((⟨curStart, prevTs, curBytes, curPkts⟩ : Burst) :: closed)
      else
        detectBurstsGo thr maxB rest p.ts_ns curStart (curBytes + p.len)
          (curPkts + 1) bc closed

/-- Burst segmentation of a packet sequence (`detect_bursts`,
`cbs-estimator.c`): fewer than 2 packets yield no bursts; otherwise the
first packet opens the first burst and the loop processes the rest. -/
def burstsOf (l : List Packet) : List Burst :=
  match l with
  | [] => []
  | [_] => []
  | p :: rest =>
      detectBurstsGo GAP_THRESHOLD_NS MAX_BURSTS rest p.ts_ns p.ts_ns p.len 1 1 []

/-- `detect_bursts` on a store: does nothing below 2 packets, else fills the
burst array from the packet array. -/
def detect_bursts (tc : TcAnalysis) : TcAnalysis :=
  if tc.packets.length < 2 then tc
  else { tc with bursts := burstsOf tc.packets }

/-- `Σ (end - start) / 1e3` over the bursts: total burst time in µs. -/
def burstTimeSum (bs : List Burst) : ℚ :=
  (bs.map (fun b => ((u64sub b.end_ns b.start_ns : Nat) : ℚ) / 1000)).sum

/-- `Σ (next.start - cur.end) / 1e3` over consecutive burst pairs: total
inter-burst gap time in µs. -/
def gapsSum : List Burst → ℚ
  | b₁ :: b₂ :: rest =>
      ((u64sub b₂.start_ns b₁.end_ns : Nat) : ℚ) / 1000 + gapsSum (b₂ :: rest)
  | _ => 0

/-- Mean inter-burst gap in µs: `total_gap_time / (burst_count - 1)` when
there are at least two bursts, else `0`. -/
def avgGapOf (bs : List Burst) : ℚ :=
  if 1 < bs.length then gapsSum bs / ((bs.length : ℚ) - 1) else 0

/-- Running maximum of the burst byte counts (`max_burst` accumulator). -/
def maxBurstBytes (bs : List Burst) : ℚ :=
  bs.foldl (fun m b => if (b.bytes : ℚ) > m then (b.bytes : ℚ) else m) 0

/-- `(last_ts - first_ts) / 1e9`: the observed duration in seconds (the
`uint64_t` difference, converted to `double`, here to `ℚ`). -/
def observedDuration_s (last_ts first_ts : Nat) : ℚ :=
  ((u64sub last_ts first_ts : Nat) : ℚ) / 1000000000

/-- `total_burst_time / total_time_us`: the fraction of the observed time
occupied by bursts. -/
def burstRatioOf (bs : List Burst) (total_duration_s : ℚ) : ℚ :=
  burstTimeSum bs / (total_duration_s * 1000000)

/-- `analyze_cbs` of `cbs-estimator.c`.  Returns the store unchanged (an
explicit "no estimate") when there are fewer than 10 packets, no burst, or a
non-positive observed duration; otherwise fills the derived statistics.  The
shaping heuristic is `has_gaps && regular_bursts && burst_ratio < 0.85`
(the `limited_burst` flag is computed by the C code but never used). -/
def analyze_cbs (tc : TcAnalysis) : TcAnalysis :=
  if tc.packets.length < 10 ∨ tc.bursts.length < 1 then tc
  else
    let total_duration_s : ℚ := observedDuration_s tc.last_ts tc.first_ts
    if total_duration_s ≤ 0 then tc
    else
      let measured_bps : ℚ := ((tc.total_bytes : ℚ) * 8) / total_duration_s
      let ratio := burstRatioOf tc.bursts total_duration_s
      let has_gaps : Bool := decide (avgGapOf tc.bursts > 100)
      let regular_bursts : Bool := decide (tc.bursts.length > 3)
      { tc with
        measured_bps := measured_bps
        max_burst_bytes := maxBurstBytes tc.bursts
        avg_burst_duration_us :=
          if 0 < tc.bursts.length then burstTimeSum tc.bursts / (tc.bursts.length : ℚ) else 0
        avg_gap_duration_us := avgGapOf tc.bursts
        burst_ratio := ratio
        is_shaped := has_gaps && regular_bursts && decide (ratio < 85 / 100)
        estimated_idle_slope := measured_bps }

/-- Consistency of a sample store with its own aggregates: the byte total is
the sum of the stored lengths, `first_ts`/`last_ts` are the first and last
stored timestamps (0 when empty), the capacity bound holds and every stored
timestamp is nonzero. -/
def storeConsistent (tc : TcAnalysis) : Prop :=
  tc.total_bytes = (tc.packets.map Packet.len).sum
    ∧ tc.first_ts = ((tc.packets.head?).map Packet.ts_ns).getD 0
    ∧ tc.last_ts = ((tc.packets.getLast?).map Packet.ts_ns).getD 0
    ∧ tc.packets.length ≤ MAX_PACKETS
    ∧ ∀ p ∈ tc.packets, p.ts_ns ≠ 0

/-- The per-class confidence string of `print_results_json`:
`tc->is_shaped ? "high" : "low"`. -/
def confidence (tc : TcAnalysis) : String :=
  if tc.is_shaped then "high" else "low"

/-- The classes `print_results_json` actually prints: both per-class loops
skip every class with `packet_count < 10`, so exactly the classes with at
least 10 packets appear in the report, paired with their index. -/
def printedClasses (data : List TcAnalysis) : List (Nat × TcAnalysis) :=
  data.enum.filter (fun p => decide (10 ≤ p.2.packets.length))

end CbsEstimator

namespace TvTool

open TsnModel

/-! Embedding of the analysis half of `tsn-verify.c` (the unified CLI tool),
whose burst segmenter, CBS analyser and TAS analyser are near-duplicates of
the dedicated estimators with small differences that matter to the claims. -/

/-- `MAX_PACKETS` of `tsn-verify.c`. -/
def MAX_PACKETS : Nat := 100000

/-- `MAX_BURSTS` of `tsn-verify.c` (half of `cbs-estimator.c`'s). -/
def MAX_BURSTS : Nat := 5000

/-- The hard-coded 500 µs gap threshold of `tsn-verify.c`'s `detect_bursts`. -/
def GAP_THRESHOLD_NS : Nat := 500000

/-- Per-class record `tc_data_t` of `tsn-verify.c`. -/
structure TcData where
  packets : List Packet := []
  bursts : List Burst := []
  tx_count : Nat := 0
  total_bytes : Nat := 0
  first_ts : Nat := 0
  last_ts : Nat := 0
  measured_bps : ℚ := 0
  estimated_idle_slope : ℚ := 0
  burst_ratio : ℚ := 0
  is_shaped : Bool := false
  histogram : List Nat := List.replicate 1000 0
  histogram_size : Nat := 0
  window_start_us : ℚ := 0
  window_duration_us : ℚ := 0
deriving Repr, DecidableEq

/-- The store-append step of `rx_callback` (identical to `cbs-estimator.c`'s
`packet_handler` append). -/
def rx_callback (tc : TcData) (p : Packet) : TcData :=
  if tc.packets.length < MAX_PACKETS then
    { tc with
      packets := tc.packets ++ [p]
      total_bytes := tc.total_bytes + p.len
      first_ts := if tc.first_ts = 0 then p.ts_ns else tc.first_ts
      last_ts := p.ts_ns }
  else tc

/-- The loop of `tsn-verify.c`'s `detect_bursts`.  Unlike the
`cbs-estimator.c` variant, the burst-capacity check `burst_count <
MAX_BURSTS` sits in the loop condition: when the cap is reached the loop
stops altogether and the remaining packets enter no burst; the final
`b->end_ns` assignment then uses the overall last packet timestamp
(`lastTs`), which in the non-truncated case coincides with the previous
timestamp. -/
def detectBurstsGoTV (thr maxB lastTs : Nat) :
    List Packet → Nat → Nat → Nat → Nat → Nat → List Burst → List Burst
  | [], _prevTs, curStart, curBytes, curPkts, _bc, closed =>
      ((⟨curStart, lastTs, curBytes, curPkts⟩ : Burst) :: closed).reverse
  | p :: rest, prevTs, curStart, curBytes, curPkts, bc, closed =>
      if bc < maxB then
        let gap := u64sub p.ts_ns prevTs
        if gap > thr then
          detectBurstsGoTV thr maxB lastTs rest p.ts_ns p.ts_ns p.len 1 (bc + 1)
            ((⟨curStart, prevTs, curBytes, curPkts⟩ : Burst) :: closed)
        else
          detectBurstsGoTV thr maxB lastTs rest p.ts_ns curStart (curBytes + p.len)
            (curPkts + 1) bc closed
      else ((⟨curStart, lastTs, curBytes, curPkts⟩ : Burst) :: closed).reverse

/-- Burst segmentation of `tsn-verify.c` (`detect_bursts`): fewer than 2
packets yield no bursts; otherwise the first packet opens the first burst
and the capped loop processes the rest. -/
def burstsOfTV (l : List Packet) : List Burst :=
  match l with
  | [] => []
  | [_] => []
  | p :: rest =>
      detectBurstsGoTV GAP_THRESHOLD_NS MAX_BURSTS
        (rest.getLastD p).ts_ns rest p.ts_ns p.ts_ns p.len 1 1 []

/-- `detect_bursts` of `tsn-verify.c` on a store. -/
def detect_bursts (tc : TcData) : TcData :=
  if tc.packets.length < 2 then tc
  else { tc with bursts := burstsOfTV tc.packets }

/-- Number of inter-packet gaps strictly above the threshold, scanning from
a previous timestamp: each such gap is where a segmenter starts a new
burst. -/
def exceedCount (thr : Nat) : Nat → List Packet → Nat
  | _, [] => 0
  | prevTs, p :: rest =>
      (if u64sub p.ts_ns prevTs > thr then 1 else 0) + exceedCount thr p.ts_ns rest

/-- Total number of bursts an uncapped segmentation of `l` would produce:
one plus the number of above-threshold gaps. -/
def totalBursts (thr : Nat) (l : List Packet) : Nat :=
  match l with
  | [] => 0
  | [_] => 0
  | p :: rest => 1 + exceedCount thr p.ts_ns rest

/-- `analyze_cbs` of `tsn-verify.c`: precondition is only `packet_count ≥ 10`
and a positive duration; the shaping heuristic here is the two-term
`(burst_ratio < 0.85) && (burst_count > 3)` (no gap-length test). -/
def analyze_cbs (tc : TcData) : TcData :=
  if tc.packets.length < 10 then tc
  else
    let duration_s : ℚ := CbsEstimator.observedDuration_s tc.last_ts tc.first_ts
    if duration_s ≤ 0 then tc
    else
      let measured_bps : ℚ := ((tc.total_bytes : ℚ) * 8) / duration_s
      let ratio := CbsEstimator.burstRatioOf tc.bursts duration_s
      { tc with
        measured_bps := measured_bps
        burst_ratio := ratio
        is_shaped := decide (ratio < 85 / 100) && decide (tc.bursts.length > 3)
        estimated_idle_slope := measured_bps }

/-- The presence threshold of `tsn-verify.c`'s `analyze_tas`:
`(int)(mean * 0.3)` raised to at least 1, with `mean = packet_count / 100`
(100 phase bins). -/
def analyzeTasThreshold (n : Nat) : Nat :=
  max 1 ⌊((n : ℚ) / 100) * (3 / 10)⌋₊

/-- `analyze_tas` of `tsn-verify.c`: build a 100-bin phase histogram of
`(ts - first_ts) mod cycle`, then report a single window spanning from the
first to the last bin at or above the presence threshold. -/
def analyze_tas (tc : TcData) (cycle_ns : Nat) (_tc_idx : Nat) : TcData :=
  if tc.packets.length < 10 ∨ cycle_ns = 0 then tc
  else
    let n_bins : Nat := 100
    let bin_size := cycle_ns / n_bins
    let hist := tc.packets.foldl
      (fun h p =>
        let bin := (u64sub p.ts_ns tc.first_ts % cycle_ns) / bin_size
        if bin < n_bins then h.set bin (h.getD bin 0 + 1) else h)
      (List.replicate n_bins 0)
    let threshold := analyzeTasThreshold tc.packets.length
    let openBins := (List.range n_bins).filter (fun i => decide (threshold ≤ hist.getD i 0))
    match openBins.head?, openBins.getLast? with
    | some s, some e =>
        { tc with
          histogram := hist
          histogram_size := n_bins
          window_start_us := (s : ℚ) * ((bin_size : ℚ) / 1000)
          window_duration_us := ((e : ℚ) - s + 1) * ((bin_size : ℚ) / 1000) }
    | _, _ => { tc with histogram := hist, histogram_size := n_bins }

end TvTool

namespace TasEstimator

open TsnModel

/-- `MAX_PACKETS` of `tas-estimator.c`. -/
def MAX_PACKETS : Nat := 200000

/-- `MAX_GCL_ENTRIES` of `tas-estimator.c`. -/
def MAX_GCL_ENTRIES : Nat := 64

/-- `HISTOGRAM_BINS` of `tas-estimator.c`. -/
def HISTOGRAM_BINS : Nat := 2000

/-- A GCL entry, `gcl_entry_t`: gate bit mask and entry duration.  In the
source `time_ns` is a `uint32_t`, so every store of a duration into an
entry is taken modulo `2^32` at the writing site (`sweep`, `build_gcl`'s
final entry, and the run-length merge's accumulating `+=`). -/
structure GclEntry where
  gate_states : Nat
  time_ns : Nat
deriving Repr, DecidableEq

/-- A detected gate-open window, `gate_window_t`. -/
structure GateWindow where
  start_offset_ns : Nat
  duration_ns : Nat
  tc : Nat
deriving Repr, DecidableEq

/-- Per-class record `tc_data_t` of `tas-estimator.c` (the interval
statistics fields are irrelevant to the claims treated here and omitted). -/
structure TcData where
  packets : List Packet := []
  first_ts : Nat := 0
  last_ts : Nat := 0
  histogram : List Nat := []
  histogram_size : Nat := 0
  windows : List GateWindow := []
deriving Repr, DecidableEq

/-- The candidate cycle times scanned by `detect_cycle_time`, 100 µs to
500 ms. -/
def candidate_cycles : List Nat :=
  [100000, 500000, 1000000, 2000000, 5000000, 10000000,
   20000000, 50000000, 100000000, 200000000, 500000000]

/-- The 100-bin phase histogram `detect_cycle_time` builds for one class
and one candidate cycle: count packets by
`((ts - first_ts) mod cycle / bin_size) mod 100`. -/
def cycleBins (tc : TcData) (cycle : Nat) : List Nat :=
  tc.packets.foldl
    (fun bins p =>
      let offset := u64sub p.ts_ns tc.first_ts % cycle
      let bin := (offset / (cycle / 100)) % 100
      bins.set bin (bins.getD bin 0 + 1))
    (List.replicate 100 0)

/-- The periodicity score of one class at one candidate cycle: population
variance of the phase-histogram bins, normalised by `mean² + 0.001`. -/
def scoreOf (tc : TcData) (cycle : Nat) : ℚ :=
  let bins := cycleBins tc cycle
  let mean : ℚ := (tc.packets.length : ℚ) / 100
  let variance : ℚ := ((bins.map (fun b => ((b : ℚ) - mean) ^ 2)).sum) / 100
  variance / (mean ^ 2 + 1 / 1000)

/-- `detect_cycle_time`: for each candidate cycle, average the scores over
the classes with at least 100 packets (classes with less are skipped) and
keep the strictly best-scoring candidate, starting from score 0 and cycle 0;
an operator-supplied `expected_cycle_ms > 0` overrides the search result. -/
def detect_cycle_time (data : List TcData) (expected_cycle_ms : ℚ) : Nat :=
  let best :=
    candidate_cycles.foldl
      (fun (best : ℚ × Nat) cycle =>
        let qualified := data.filter (fun tc => decide (100 ≤ tc.packets.length))
        if 0 < qualified.length then
          let avg := (qualified.map (fun tc => scoreOf tc cycle)).sum / (qualified.length : ℚ)
          if avg > best.1 then (avg, cycle) else best
        else best)
      (0, 0)
  if expected_cycle_ms > 0 then ⌊expected_cycle_ms * 1000000⌋₊ else best.2

/-- `build_histogram`: fill the 2000-bin phase histogram of
`(ts - first_ts) mod cycle_ns` (bin width `cycle_ns / 2000`, at least 1);
a no-op below 10 packets or at cycle 0. -/
def build_histogram (tc : TcData) (cycle_ns : Nat) : TcData :=
  if tc.packets.length < 10 ∨ cycle_ns = 0 then tc
  else
    let n_bins := HISTOGRAM_BINS
    let bin_size := max (cycle_ns / n_bins) 1
    let hist := tc.packets.foldl
      (fun h p =>
        let offset := u64sub p.ts_ns tc.first_ts % cycle_ns
        let bin := (offset / bin_size) % n_bins
        h.set bin (h.getD bin 0 + 1))
      (List.replicate n_bins 0)
    { tc with histogram := hist, histogram_size := n_bins }

/-- The presence threshold of `tas-estimator.c`'s `detect_windows`:
`(int)(mean * 0.3)` raised to at least 1 — where the code's `mean` variable
is `packet_count * 2.0 / histogram_size`, i.e. twice the actual mean bin
occupancy. -/
def detectWindowsThreshold (n size : Nat) : Nat :=
  max 1 ⌊(((n : ℚ) * 2) / (size : ℚ)) * (3 / 10)⌋₊

/-- The presence cutoff as worded by the design document: 0.3 times the mean
bin occupancy (observation count over bin count), raised to a minimum of 1.
This definition follows the specification text, for comparison against the
two implementations' thresholds. -/
def specThreshold (n bins : Nat) : Nat :=
  max 1 (3 * n / (10 * bins))

/-- The window scan of `detect_windows`: walk the bins (with one synthetic
zero bin appended, forcing a final close), opening a window on a low→high
transition and closing it on high→low; at most 16 windows are recorded.
Returns the windows and the final `in_window` flag. -/
def windowScanStep (threshold bin_size tc_idx : Nat)
    (st : List GateWindow × Bool × Nat × Nat) (bin_val : Nat) :
    List GateWindow × Bool × Nat × Nat :=
  let (ws, in_window, wstart, i) := st
  if threshold ≤ bin_val ∧ ¬in_window then (ws, true, i, i + 1)
  else if bin_val < threshold ∧ in_window then
    ((if ws.length < 16 then
        ws ++ [(⟨wstart * bin_size, (i - wstart) * bin_size, tc_idx⟩ : GateWindow)]
      else ws), false, wstart, i + 1)
  else (ws, in_window, wstart, i + 1)

def windowScan (bins : List Nat) (threshold bin_size tc_idx : Nat) :
    List GateWindow × Bool :=
  let r := (bins ++ [0]).foldl (windowScanStep threshold bin_size tc_idx) ([], false, 0, 0)
  (r.1, r.2.1)

/-- The wrap-around merge step of `detect_windows`: overwrite the first
window with the last one's start and the summed duration (capped at the
cycle length) and drop the last window. -/
def wrapMerge (ws : List GateWindow) (cycle_ns : Nat) : List GateWindow :=
  match ws.getLast?, ws.head? with
  | some lastW, some firstW =>
      let d := lastW.duration_ns + firstW.duration_ns
      (ws.set 0 ⟨lastW.start_offset_ns, if d > cycle_ns then cycle_ns else d, firstW.tc⟩).dropLast
  | _, _ => ws

/-- `detect_windows` of `tas-estimator.c`: scan the histogram for windows at
the presence threshold; afterwards, if a window is still open and the first
bin is above threshold, merge the trailing window into the first
(wrap-around handling). -/
def detect_windows (tc : TcData) (cycle_ns : Nat) (tc_idx : Nat) : TcData :=
  if tc.histogram_size = 0 ∨ tc.packets.length < 10 then tc
  else
    let threshold := detectWindowsThreshold tc.packets.length tc.histogram_size
    let bin_size := cycle_ns / tc.histogram_size
    let scan := windowScan (tc.histogram.take tc.histogram_size) threshold bin_size tc_idx
    let ws :=
      if scan.2 ∧ 0 < scan.1.length ∧ threshold ≤ tc.histogram.getD 0 0 then
        wrapMerge scan.1 cycle_ns
      else scan.1
    { tc with windows := ws }

/-- A sweep event of `build_gcl`: a window boundary time, the class it
belongs to, and whether the window starts or ends there. -/
structure Event where
  time : Nat
  tc : Nat
  is_start : Bool
deriving Repr, DecidableEq

/-- The start/end event pairs of `build_gcl`, in class order then window
order; an end event time wraps modulo the cycle. -/
def mkEvents (cycle : Nat) : Nat → List (List GateWindow) → List Event
  | _, [] => []
  | t, ws :: rest =>
      (ws.map (fun w =>
        [(⟨w.start_offset_ns, t, true⟩ : Event),
         ⟨(w.start_offset_ns + w.duration_ns) % cycle, t, false⟩])).flatten
        ++ mkEvents cycle (t + 1) rest

/-- Swap two positions of a list (the array swap inside the sort loops);
out-of-range indices leave the list unchanged. -/
def listSwap (l : List Event) (i j : Nat) : List Event :=
  match l[i]?, l[j]? with
  | some x, some y => (l.set i y).set j x
  | _, _ => l

/-- The event time at a position (0 for an out-of-range index; the sort
only compares in-range positions). -/
def timeAt (l : List Event) (k : Nat) : Nat :=
  ((l[k]?).map Event.time).getD 0

/-- The exact exchange sort of `build_gcl` (`for i … for j > i … swap if
events[j].time < events[i].time`).  This sort is not stable, so it is
reproduced verbatim rather than replaced by a library sort. -/
def sortEvents (l : List Event) : List Event :=
  (List.range (l.length - 1)).foldl
    (fun acc i =>
      (List.range' (i + 1) (acc.length - (i + 1))).foldl
        (fun a j => if timeAt a j < timeAt a i then listSwap a i j else a)
        acc)
    l

/-- The initial gate mask of `build_gcl`: bit `t` is set when some window of
class `t` spans time zero (starts at 0, or runs past the cycle end). -/
def initialGates (cycle : Nat) : Nat → Nat → List (List GateWindow) → Nat
  | g, _, [] => g
  | g, t, ws :: rest =>
      initialGates cycle
        (ws.foldl
          (fun g w =>
            if w.start_offset_ns = 0 ∨ cycle < w.start_offset_ns + w.duration_ns then
              g ||| (1 <<< t)
            else g)
          g)
        (t + 1) rest

/-- Clearing bit `t` of a gate mask (`current_gates &= ~(1 << tc)`). -/
def clearBit (g t : Nat) : Nat := if g.testBit t then g - 2 ^ t else g

/-- Applying one event to the gate mask: set the class bit on a start event,
clear it on an end event. -/
def applyEvent (g : Nat) (ev : Event) : Nat :=
  if ev.is_start then g ||| (1 <<< ev.tc) else clearBit g ev.tc

/-- The running state of the `build_gcl` sweep: entries emitted so far, the
current gate mask, and the time of the last emitted boundary. -/
structure SweepState where
  gcl : List GclEntry
  gates : Nat
  last_time : Nat
deriving Repr, DecidableEq

/-- The event sweep of `build_gcl`.  The loop runs while entries remain
below `MAX_GCL_ENTRIES`; an event at the same time as its predecessor only
updates the mask; otherwise, if the event time advanced past the last
boundary, an entry for the elapsed interval is emitted before the mask
update.  The stored duration is a `uint32_t`, so the `uint64` difference
`events[e].time - last_time` is truncated modulo `2^32` at the store. -/
def sweep : List Event → Option Nat → SweepState → SweepState
  | [], _, s => s
  | ev :: rest, prev, s =>
      if s.gcl.length < MAX_GCL_ENTRIES then
        if prev = some ev.time then
          sweep rest (some ev.time) { s with gates := applyEvent s.gates ev }
        else if s.last_time < ev.time then
          sweep rest (some ev.time)
            { gcl := s.gcl ++ [⟨s.gates, (ev.time - s.last_time) % 2 ^ 32⟩],
              gates := applyEvent s.gates ev,
              last_time := ev.time }
        else
          sweep rest (some ev.time) { s with gates := applyEvent s.gates ev }
      else s

/-- The run-length merge loop of `build_gcl`: fold each entry into its
predecessor when they carry the same gate mask, summing durations with the
wrap of the `uint32_t` `+=`. -/
def rleMergeAux (acc : List GclEntry) : List GclEntry → List GclEntry
  | [] => acc
  | e :: rest =>
      match acc.getLast? with
      | some lastE =>
          if lastE.gate_states = e.gate_states then
            rleMergeAux
              (acc.dropLast ++ [⟨lastE.gate_states, (lastE.time_ns + e.time_ns) % 2 ^ 32⟩]) rest
          else rleMergeAux (acc ++ [e]) rest
      | none => rleMergeAux [e] rest

/-- Run-length merge of adjacent same-mask entries. -/
def rleMerge (l : List GclEntry) : List GclEntry := rleMergeAux [] l

/-- `build_gcl` of `tas-estimator.c` on the per-class window lists (class
`t`'s windows at position `t`): generate and sort the boundary events,
determine the initial mask, sweep, emit the final entry completing the cycle
(when the boundary is short of the cycle and the entry cap is not reached;
the stored duration again truncated to `uint32_t`), and run-length-merge. -/
def build_gcl (wins : List (List GateWindow)) (cycle_ns : Nat) : List GclEntry :=
  let events := sortEvents (mkEvents cycle_ns 0 wins)
  let g0 := initialGates cycle_ns 0 0 wins
  let s := sweep events none ⟨[], g0, 0⟩
  let gcl :=
    if s.last_time < cycle_ns ∧ s.gcl.length < MAX_GCL_ENTRIES then
      s.gcl ++ [⟨s.gates, (cycle_ns - s.last_time) % 2 ^ 32⟩]
    else s.gcl
  rleMerge gcl

/-- The TAS-analysis tail of `main`: detect the cycle, fail with a terminal
error when none was detected, otherwise build histograms, detect windows per
class and build the GCL. -/
def tas_main_analysis (data : List TcData) (expected_cycle_ms : ℚ) :
    Except String (Nat × List GclEntry) :=
  let cyc := detect_cycle_time data expected_cycle_ms
  if cyc = 0 then Except.error "Could not detect cycle time"
  else
    let analysed := data.enum.map
      (fun p => detect_windows (build_histogram p.2 cyc) cyc p.1)
    Except.ok (cyc, build_gcl (analysed.map TcData.windows) cyc)

end TasEstimator

namespace Fixtures

open TsnModel

/-- A packet train of `m` packets of length `len`, spaced `s` ns apart,
starting at `base`. -/
def trainFrom (s len : Nat) : Nat → Nat → List Packet
  | _, 0 => []
  | base, m + 1 => ⟨base, len⟩ :: trainFrom s len (base + s) m

/-- `n` observations of 100 bytes at uniform `spacing` ns, starting at
`t = 10^9` ns. -/
def uniformTrain (n spacing : Nat) : List Packet :=
  trainFrom spacing 100 1000000000 n

/-- A `cbs-estimator.c` store holding exactly the given packets, with the
aggregate fields (`total_bytes`, `first_ts`, `last_ts`) computed from them,
as capture would have left them. -/
def trainStore (l : List Packet) : CbsEstimator.TcAnalysis :=
  { packets := l
    total_bytes := (l.map Packet.len).sum
    first_ts := ((l.head?).map Packet.ts_ns).getD 0
    last_ts := ((l.getLast?).map Packet.ts_ns).getD 0 }

/-- A `tsn-verify.c` store holding exactly the given packets. -/
def trainStoreTV (l : List Packet) : TvTool.TcData :=
  { packets := l
    total_bytes := (l.map Packet.len).sum
    first_ts := ((l.head?).map Packet.ts_ns).getD 0
    last_ts := ((l.getLast?).map Packet.ts_ns).getD 0 }

/-- 32 non-degenerate windows (16 per class on classes 0 and 1, the
per-class array bound of `tas-estimator.c`) inside a 1000 ns cycle, all 64
boundary times distinct: enough events to overrun the 64-entry GCL cap. -/
def manyWindows : List (List TasEstimator.GateWindow) :=
  [(List.range 16).map (fun i => ⟨4 * i + 1, 2, 0⟩),
   (List.range 16).map (fun i => ⟨4 * i + 65, 2, 1⟩)]

/-- A store of 10 observations sharing one timestamp (`10^9` ns): at least
10 packets, but zero observed duration. -/
def zeroDurationStore : CbsEstimator.TcAnalysis := trainStore (uniformTrain 10 0)

/-- `m` single-packet bursts of `len` bytes, `s` ns apart, starting at
`base` — the burst list the segmenters produce on a uniform train whose
spacing exceeds the gap threshold. -/
def singletonBursts (s len : Nat) : Nat → Nat → List TsnModel.Burst
  | _, 0 => []
  | base, m + 1 => ⟨base, base, len, 1⟩ :: singletonBursts s len (base + s) m

/-- A `tsn-verify.c` class with 20 observations and 5 single-packet bursts
1 ms apart — shaped-looking data for exercising the classification rule. -/
def shapedTv : TvTool.TcData :=
  { packets := uniformTrain 20 1000000
    bursts := singletonBursts 1000000 100 1000000000 5
    total_bytes := 2000
    first_ts := 1000000000
    last_ts := 1019000000 }

/-- A class whose phase histogram holds one open region wrapping the cycle
boundary: bins 0–399 at 3 and bins 1600–1999 at 2 of a 2000-bin histogram
(2000 observations, 10 ms cycle), everything else empty. -/
def wrapTc : TasEstimator.TcData :=
  { packets := List.replicate 2000 ⟨0, 0⟩
    histogram := List.replicate 400 3 ++ List.replicate 1200 0 ++ List.replicate 400 2
    histogram_size := 2000 }

end Fixtures

/-! ## Lemmas about burst segmentation -/

namespace CbsEstimator

open TsnModel

theorem detectBurstsGo_sum (thr maxB : Nat) (rest : List Packet) :
    ∀ (prevTs curStart curBytes curPkts bc : Nat) (closed : List Burst),
      ((detectBurstsGo thr maxB rest prevTs curStart curBytes curPkts bc closed).map
          Burst.packets).sum
        = curPkts + (closed.map Burst.packets).sum + rest.length := by
  induction rest with
  | nil =>
      intro prevTs curStart curBytes curPkts bc closed
      simp [detectBurstsGo, List.map_reverse, List.sum_reverse]
      omega
  | cons p rest ih =>
      intro prevTs curStart curBytes curPkts bc closed
      simp only [detectBurstsGo]
      split
      · rw [ih]
        simp only [List.map_cons, List.sum_cons, List.length_cons]
        omega
      · rw [ih]
        simp only [List.length_cons]
        omega

/-- The burst-ordering invariant of the segmentation loop: under a
monotone, `2^64`-bounded timestamp stream, and given that the reversed
in-progress burst list is ordered with inter-burst gaps above the threshold,
the final burst list is so ordered and every burst has `start ≤ end`. -/
theorem detectBurstsGo_chain (thr maxB : Nat) (rest : List Packet) :
    ∀ (prevTs curStart curBytes curPkts bc : Nat) (closed : List Burst),
      (∀ a ∈ rest.head?, prevTs ≤ a.ts_ns) →
      List.Chain' (fun p q => p.ts_ns ≤ q.ts_ns) rest →
      prevTs < 2 ^ 64 → (∀ p ∈ rest, p.ts_ns < 2 ^ 64) →
      curStart ≤ prevTs →
      List.Chain' (fun a b => b.end_ns + thr < a.start_ns)
        ((⟨curStart, prevTs, curBytes, curPkts⟩ : Burst) :: closed) →
      (∀ b ∈ closed, b.start_ns ≤ b.end_ns) →
      List.Chain' (fun b₁ b₂ => b₁.end_ns + thr < b₂.start_ns)
          (detectBurstsGo thr maxB rest prevTs curStart curBytes curPkts bc closed)
        ∧ ∀ b ∈ detectBurstsGo thr maxB rest prevTs curStart curBytes curPkts bc closed,
            b.start_ns ≤ b.end_ns := by
  induction rest with
  | nil =>
      intro prevTs curStart curBytes curPkts bc closed _ _ _ _ hcs hchain hmem
      constructor
      · rw [detectBurstsGo, List.chain'_reverse]
        exact hchain
      · intro b hb
        rw [detectBurstsGo, List.mem_reverse] at hb
        rcases List.mem_cons.mp hb with h | h
        · subst h; exact hcs
        · exact hmem b h
  | cons p rest ih =>
      intro prevTs curStart curBytes curPkts bc closed hhead hmono hprev hbound hcs hchain hmem
      have hle : prevTs ≤ p.ts_ns := hhead p rfl
      have hmono' : List.Chain' (fun p q : Packet => p.ts_ns ≤ q.ts_ns) rest :=
        (List.chain'_cons'.mp hmono).2
      have hhead' : ∀ a ∈ rest.head?, p.ts_ns ≤ a.ts_ns :=
        (List.chain'_cons'.mp hmono).1
      have hpb : p.ts_ns < 2 ^ 64 := hbound p (List.mem_cons_self p rest)
      have hbound' : ∀ q ∈ rest, q.ts_ns < 2 ^ 64 := fun q hq =>
        hbound q (List.mem_cons_of_mem p hq)
      have hgap : u64sub p.ts_ns prevTs = p.ts_ns - prevTs :=
        u64sub_eq_sub hle (by omega)
      simp only [detectBurstsGo]
      split
      · next hcond =>
          refine ih p.ts_ns p.ts_ns p.len 1 (bc + 1) _ hhead' hmono' hpb hbound' le_rfl ?_ ?_
          · rw [List.chain'_cons]
            refine ⟨?_, hchain⟩
            show prevTs + thr < p.ts_ns
            have h1 := hcond.1
            rw [hgap] at h1
            omega
          · intro b hb
            rcases List.mem_cons.mp hb with h | h
            · subst h; exact hcs
            · exact hmem b h
      · next hcond =>
          refine ih p.ts_ns curStart (curBytes + p.len) (curPkts + 1) bc _ hhead' hmono' hpb
            hbound' (le_trans hcs hle) ?_ hmem
          rw [List.chain'_cons'] at hchain ⊢
          exact ⟨hchain.1, hchain.2⟩

/-- Packet counts of the `cbs-estimator.c` segmenter sum to the input
length whenever there are at least 2 observations. -/
theorem burstsOf_sum {l : List Packet} (h : 2 ≤ l.length) :
    ((burstsOf l).map Burst.packets).sum = l.length := by
  match l, h with
  | p :: q :: rest, _ =>
      show ((detectBurstsGo _ _ (q :: rest) _ _ _ _ _ _).map Burst.packets).sum = _
      rw [detectBurstsGo_sum]
      simp
      omega

/-- Fewer than 2 observations yield no bursts (`cbs-estimator.c`). -/
theorem burstsOf_short {l : List Packet} (h : l.length < 2) : burstsOf l = [] := by
  match l, h with
  | [], _ => rfl
  | [_], _ => rfl

/-- The `cbs-estimator.c` segmenter's bursts are separated by gaps above the
threshold and internally consistent, for every monotone bounded input. -/
theorem burstsOf_chain {l : List Packet}
    (hmono : List.Chain' (fun p q => p.ts_ns ≤ q.ts_ns) l)
    (hbound : ∀ p ∈ l, p.ts_ns < 2 ^ 64) :
    List.Chain' (fun b₁ b₂ => b₁.end_ns + GAP_THRESHOLD_NS < b₂.start_ns) (burstsOf l)
      ∧ ∀ b ∈ burstsOf l, b.start_ns ≤ b.end_ns := by
  match l, hmono, hbound with
  | [], _, _ => exact ⟨List.chain'_nil, by simp [burstsOf]⟩
  | [p], _, _ => exact ⟨List.chain'_nil, by simp [burstsOf]⟩
  | p :: q :: rest, hmono, hbound =>
      have h1 : List.Chain' (fun a b : Packet => a.ts_ns ≤ b.ts_ns) (q :: rest) :=
        (List.chain'_cons'.mp hmono).2
      have h2 : ∀ a ∈ (q :: rest).head?, p.ts_ns ≤ a.ts_ns :=
        (List.chain'_cons'.mp hmono).1
      have hb : ∀ r ∈ q :: rest, r.ts_ns < 2 ^ 64 := fun r hr =>
        hbound r (List.mem_cons_of_mem p hr)
      exact detectBurstsGo_chain GAP_THRESHOLD_NS MAX_BURSTS (q :: rest) p.ts_ns p.ts_ns p.len
        1 1 [] h2 h1 (hbound p (List.mem_cons_self p _)) hb le_rfl (by simp) (by simp)

end CbsEstimator

namespace TvTool

open TsnModel

theorem map_ts_getLastD (l : List Packet) (d : Packet) :
    (l.map Packet.ts_ns).getLastD d.ts_ns = (l.getLastD d).ts_ns := by
  induction l generalizing d with
  | nil => rfl
  | cons a l ih => rw [List.map_cons, List.getLastD_cons, List.getLastD_cons, ih]

/-- While the `tsn-verify.c` burst cap is never reached (strictly), its
segmentation loop agrees with the `cbs-estimator.c` loop (under any cap
`maxB'` at least as large as the bursts produced). -/
theorem detectBurstsGoTV_eq_go (thr : Nat) (rest : List Packet) :
    ∀ (maxB maxB' lastTs prevTs curStart curBytes curPkts bc : Nat) (closed : List Burst),
      bc + exceedCount thr prevTs rest < maxB →
      bc + exceedCount thr prevTs rest ≤ maxB' →
      lastTs = (rest.map Packet.ts_ns).getLastD prevTs →
      detectBurstsGoTV thr maxB lastTs rest prevTs curStart curBytes curPkts bc closed
      = CbsEstimator.detectBurstsGo thr maxB' rest prevTs curStart curBytes curPkts bc closed := by
  induction rest with
  | nil =>
      intro maxB maxB' lastTs prevTs curStart curBytes curPkts bc closed _ _ hlast
      simp only [List.map_nil, List.getLastD_nil] at hlast
      subst hlast
      rfl
  | cons p rest ih =>
      intro maxB maxB' lastTs prevTs curStart curBytes curPkts bc closed hcap hcap' hlast
      have hbc : bc < maxB := Nat.lt_of_le_of_lt (Nat.le_add_right _ _) hcap
      rw [List.map_cons, List.getLastD_cons] at hlast
      simp only [detectBurstsGoTV, CbsEstimator.detectBurstsGo]
      rw [if_pos hbc]
      by_cases hg : u64sub p.ts_ns prevTs > thr
      · have hexc : exceedCount thr prevTs (p :: rest)
            = 1 + exceedCount thr p.ts_ns rest := by
          simp [exceedCount, hg]
        rw [hexc] at hcap hcap'
        have hbc' : bc < maxB' := by omega
        rw [if_pos hg, if_pos ⟨hg, hbc'⟩]
        exact ih maxB maxB' lastTs p.ts_ns p.ts_ns p.len 1 (bc + 1) _
          (by omega) (by omega) hlast
      · have hexc : exceedCount thr prevTs (p :: rest)
            = exceedCount thr p.ts_ns rest := by
          simp [exceedCount, hg]
        rw [hexc] at hcap hcap'
        rw [if_neg hg, if_neg (fun hc => hg hc.1)]
        exact ih maxB maxB' lastTs p.ts_ns curStart (curBytes + p.len) (curPkts + 1) bc _
          hcap hcap' hlast

/-- `tsn-verify.c` and `cbs-estimator.c` segment identically whenever
strictly fewer than `MAX_BURSTS = 5000` bursts arise. -/
theorem burstsOfTV_eq {l : List Packet}
    (h : totalBursts GAP_THRESHOLD_NS l < MAX_BURSTS) :
    burstsOfTV l = CbsEstimator.burstsOf l := by
  match l, h with
  | [], _ => rfl
  | [_], _ => rfl
  | p :: q :: rest, h =>
      have htb : 1 + exceedCount GAP_THRESHOLD_NS p.ts_ns (q :: rest) < MAX_BURSTS := h
      have h5 : MAX_BURSTS = 5000 := rfl
      have h10 : CbsEstimator.MAX_BURSTS = 10000 := rfl
      exact detectBurstsGoTV_eq_go GAP_THRESHOLD_NS (q :: rest) MAX_BURSTS
        CbsEstimator.MAX_BURSTS _ p.ts_ns p.ts_ns p.len 1 1 [] htb
        (by omega) (map_ts_getLastD (q :: rest) p).symm

/-- Sum of the packet counts of the `tsn-verify.c` segmentation loop when
every remaining inter-packet gap exceeds the threshold: each processed
packet yields one burst, and processing stops at the cap, dropping the
remaining packets. -/
theorem detectBurstsGoTV_sum_cap (thr maxB lastTs : Nat) (rest : List Packet) :
    ∀ (prevTs curStart curBytes curPkts bc : Nat) (closed : List Burst),
      bc ≤ maxB →
      (∀ a ∈ rest.head?, thr < u64sub a.ts_ns prevTs) →
      List.Chain' (fun p q => thr < u64sub q.ts_ns p.ts_ns) rest →
      ((detectBurstsGoTV thr maxB lastTs rest prevTs curStart curBytes curPkts bc closed).map
          Burst.packets).sum
        = curPkts + (closed.map Burst.packets).sum + min rest.length (maxB - bc) := by
  induction rest with
  | nil =>
      intro prevTs curStart curBytes curPkts bc closed _ _ _
      simp [detectBurstsGoTV, List.map_reverse, List.sum_reverse]
      omega
  | cons p rest ih =>
      intro prevTs curStart curBytes curPkts bc closed hbc hhead hchain
      simp only [detectBurstsGoTV]
      by_cases hcap : bc < maxB
      · rw [if_pos hcap]
        have hg : thr < u64sub p.ts_ns prevTs := hhead p rfl
        rw [if_pos hg]
        rw [ih p.ts_ns p.ts_ns p.len 1 (bc + 1) _ hcap
            (List.chain'_cons'.mp hchain).1 (List.chain'_cons'.mp hchain).2]
        simp only [List.map_cons, List.sum_cons, List.length_cons]
        omega
      · rw [if_neg hcap]
        simp [List.map_reverse, List.sum_reverse]
        omega

/-- Packet-count sum of the `tsn-verify.c` segmentation when every
inter-packet gap exceeds the threshold: one burst per packet until the cap,
the packets beyond the cap being dropped. -/
theorem burstsOfTV_sum_of_allGaps (p q : Packet) (rest : List Packet)
    (hhead : GAP_THRESHOLD_NS < u64sub q.ts_ns p.ts_ns)
    (hchain : List.Chain' (fun a b : Packet => GAP_THRESHOLD_NS < u64sub b.ts_ns a.ts_ns)
      (q :: rest)) :
    ((burstsOfTV (p :: q :: rest)).map Burst.packets).sum
      = 1 + min (rest.length + 1) (MAX_BURSTS - 1) := by
  have h := detectBurstsGoTV_sum_cap GAP_THRESHOLD_NS MAX_BURSTS
    (((q :: rest).getLastD p).ts_ns) (q :: rest) p.ts_ns p.ts_ns p.len 1 1 []
    (by decide)
    (by intro a ha
        rw [List.head?_cons] at ha
        have hq := Option.mem_some_iff.mp ha
        subst hq
        exact hhead)
    hchain
  show ((detectBurstsGoTV GAP_THRESHOLD_NS MAX_BURSTS
      (((q :: rest).getLastD p).ts_ns) (q :: rest) p.ts_ns p.ts_ns p.len 1 1 []).map
        Burst.packets).sum = _
  rw [h]
  simp only [List.map_nil, List.sum_nil, List.length_cons]
  omega

end TvTool

namespace Fixtures

open TsnModel

theorem trainFrom_length (s len : Nat) :
    ∀ (m base : Nat), (trainFrom s len base m).length = m
  | 0, _ => rfl
  | m + 1, base => by rw [trainFrom, List.length_cons, trainFrom_length s len m]

theorem trainFrom_gap_chain (s len thr : Nat) (hthr : thr < s) (hs : s < 2 ^ 64) :
    ∀ (m base : Nat),
      List.Chain' (fun p q : Packet => thr < u64sub q.ts_ns p.ts_ns) (trainFrom s len base m)
  | 0, _ => List.chain'_nil
  | 1, _ => by rw [trainFrom, trainFrom]; exact List.chain'_singleton _
  | m + 2, base => by
      rw [trainFrom, trainFrom, List.chain'_cons]
      refine ⟨?_, ?_⟩
      · show thr < u64sub (base + s) base
        rw [u64sub_eq_sub (Nat.le_add_right _ _) (by omega)]
        omega
      · have h := trainFrom_gap_chain s len thr hthr hs (m + 1) (base + s)
        rw [trainFrom] at h
        exact h

theorem trainFrom_mono_chain (s len : Nat) :
    ∀ (m base : Nat),
      List.Chain' (fun p q : Packet => p.ts_ns ≤ q.ts_ns) (trainFrom s len base m)
  | 0, _ => List.chain'_nil
  | 1, _ => by rw [trainFrom, trainFrom]; exact List.chain'_singleton _
  | m + 2, base => by
      rw [trainFrom, trainFrom, List.chain'_cons]
      refine ⟨Nat.le_add_right _ _, ?_⟩
      have h := trainFrom_mono_chain s len (m + 1) (base + s)
      rw [trainFrom] at h
      exact h

end Fixtures

namespace Claims

open TsnModel

/-- Claim C2 (amended).  For every time-ordered (and `2^64`-bounded)
observation sequence: the `cbs-estimator.c` burst segmenter's bursts carry
packet counts summing to the input length and are time-ordered and
non-overlapping (whenever there are at least 2 observations), and fewer
than 2 observations give the empty burst list; the `tsn-verify.c` variant
produces the very same bursts provided fewer than its cap of 5000 bursts
arise (at the cap it stops scanning and drops the remaining observations
from the burst accounting, which is what the unamended claim misses). -/
theorem c2_burst_partition (l : List Packet)
    (hmono : List.Chain' (fun p q => p.ts_ns ≤ q.ts_ns) l)
    (hbound : ∀ p ∈ l, p.ts_ns < 2 ^ 64) :
    (2 ≤ l.length →
        ((CbsEstimator.burstsOf l).map Burst.packets).sum = l.length
        ∧ List.Chain' (fun b₁ b₂ => b₁.end_ns < b₂.start_ns) (CbsEstimator.burstsOf l)
        ∧ ∀ b ∈ CbsEstimator.burstsOf l, b.start_ns ≤ b.end_ns)
    ∧ (l.length < 2 → CbsEstimator.burstsOf l = [])
    ∧ (TvTool.totalBursts TvTool.GAP_THRESHOLD_NS l < TvTool.MAX_BURSTS →
        TvTool.burstsOfTV l = CbsEstimator.burstsOf l) := by
  refine ⟨fun h2 => ⟨CbsEstimator.burstsOf_sum h2, ?_, ?_⟩,
    fun hlt => CbsEstimator.burstsOf_short hlt,
    fun hcap => TvTool.burstsOfTV_eq hcap⟩
  · exact ((CbsEstimator.burstsOf_chain hmono hbound).1).imp (fun h => by omega)
  · exact (CbsEstimator.burstsOf_chain hmono hbound).2

/-- Witness for C2 at a concrete 3-packet input. -/
theorem c2_burst_partition_witness :
    (2 ≤ (Fixtures.uniformTrain 3 100000).length →
        ((CbsEstimator.burstsOf (Fixtures.uniformTrain 3 100000)).map Burst.packets).sum
            = (Fixtures.uniformTrain 3 100000).length
        ∧ List.Chain' (fun b₁ b₂ => b₁.end_ns < b₂.start_ns)
            (CbsEstimator.burstsOf (Fixtures.uniformTrain 3 100000))
        ∧ ∀ b ∈ CbsEstimator.burstsOf (Fixtures.uniformTrain 3 100000),
            b.start_ns ≤ b.end_ns)
    ∧ ((Fixtures.uniformTrain 3 100000).length < 2 →
        CbsEstimator.burstsOf (Fixtures.uniformTrain 3 100000) = [])
    ∧ (TvTool.totalBursts TvTool.GAP_THRESHOLD_NS (Fixtures.uniformTrain 3 100000)
          < TvTool.MAX_BURSTS →
        TvTool.burstsOfTV (Fixtures.uniformTrain 3 100000)
          = CbsEstimator.burstsOf (Fixtures.uniformTrain 3 100000)) :=
  c2_burst_partition (Fixtures.uniformTrain 3 100000)
    (Fixtures.trainFrom_mono_chain 100000 100 3 1000000000)
    (by intro p hp
        rw [show Fixtures.uniformTrain 3 100000
            = [(⟨1000000000, 100⟩ : Packet), ⟨1000100000, 100⟩, ⟨1000200000, 100⟩] from rfl] at hp
        fin_cases hp <;> decide)

/-- Counterexample to C2 as stated: 5001 observations at 1 ms spacing (all
gaps above the 500 µs threshold) drive the `tsn-verify.c` segmenter into its
5000-burst cap; the packet counts then sum to 5000, not 5001 — the last
observation is covered by no burst. -/
theorem c2_counterexample :
    ((TvTool.burstsOfTV (Fixtures.uniformTrain 5001 1000000)).map Burst.packets).sum
      ≠ (Fixtures.uniformTrain 5001 1000000).length := by
  have hchain : List.Chain' (fun p q : Packet => TvTool.GAP_THRESHOLD_NS < u64sub q.ts_ns p.ts_ns)
      ((⟨1001000000, 100⟩ : Packet) :: Fixtures.trainFrom 1000000 100 1002000000 4999) := by
    have h := Fixtures.trainFrom_gap_chain 1000000 100 TvTool.GAP_THRESHOLD_NS
      (by decide) (by decide) 5000 1001000000
    rw [Fixtures.trainFrom] at h
    exact h
  have hshape : Fixtures.uniformTrain 5001 1000000
      = (⟨1000000000, 100⟩ : Packet) :: (⟨1001000000, 100⟩ : Packet) ::
        Fixtures.trainFrom 1000000 100 1002000000 4999 := rfl
  rw [hshape, TvTool.burstsOfTV_sum_of_allGaps _ _ _ (by decide) hchain,
    List.length_cons, List.length_cons, Fixtures.trainFrom_length]
  decide

end Claims

namespace CbsEstimator

open TsnModel

theorem u64sub_self (a : Nat) : u64sub a a = 0 := by
  have h : a + 2 ^ 64 - a = 2 ^ 64 := by omega
  rw [u64sub, h, Nat.mod_self]

/-- The three "insufficient data" conditions of `analyze_cbs` each leave the
store untouched (no field is computed). -/
theorem analyze_cbs_unchanged (tc : TcAnalysis)
    (h : tc.packets.length < 10 ∨ tc.bursts.length < 1
      ∨ u64sub tc.last_ts tc.first_ts = 0) :
    analyze_cbs tc = tc := by
  by_cases h1 : tc.packets.length < 10 ∨ tc.bursts.length < 1
  · rw [analyze_cbs, if_pos h1]
  · have h0 : u64sub tc.last_ts tc.first_ts = 0 := by tauto
    have hdur : observedDuration_s tc.last_ts tc.first_ts ≤ 0 := by
      rw [observedDuration_s, h0]
      norm_num
    simp only [analyze_cbs, if_neg h1, if_pos hdur]

/-- Unfolding of `analyze_cbs` when all preconditions hold. -/
theorem analyze_cbs_eq (tc : TcAnalysis)
    (h1 : ¬(tc.packets.length < 10 ∨ tc.bursts.length < 1))
    (h2 : ¬(observedDuration_s tc.last_ts tc.first_ts ≤ 0)) :
    analyze_cbs tc = { tc with
      measured_bps := ((tc.total_bytes : ℚ) * 8) / observedDuration_s tc.last_ts tc.first_ts
      max_burst_bytes := maxBurstBytes tc.bursts
      avg_burst_duration_us :=
        if 0 < tc.bursts.length then burstTimeSum tc.bursts / (tc.bursts.length : ℚ) else 0
      avg_gap_duration_us := avgGapOf tc.bursts
      burst_ratio := burstRatioOf tc.bursts (observedDuration_s tc.last_ts tc.first_ts)
      is_shaped := decide (avgGapOf tc.bursts > 100) && decide (tc.bursts.length > 3)
        && decide (burstRatioOf tc.bursts (observedDuration_s tc.last_ts tc.first_ts) < 85 / 100)
      estimated_idle_slope :=
        ((tc.total_bytes : ℚ) * 8) / observedDuration_s tc.last_ts tc.first_ts } := by
  simp only [analyze_cbs, if_neg h1, if_neg h2]

/-- Σ of the inter-burst gaps is more than `thr/1000` µs per gap when the
bursts are separated by more than `thr` ns. -/
theorem gapsSum_gt (thr : Nat) :
    ∀ bs : List Burst,
      List.Chain' (fun b₁ b₂ => b₁.end_ns + thr < b₂.start_ns) bs →
      (∀ b ∈ bs, b.start_ns < 2 ^ 64) →
      2 ≤ bs.length →
      ((thr : ℚ) / 1000) * ((bs.length : ℚ) - 1) < gapsSum bs
  | b₁ :: b₂ :: rest, hchain, hb, _ => by
      obtain ⟨hlt, hchain'⟩ := List.chain'_cons.mp hchain
      have hb2 : b₂.start_ns < 2 ^ 64 := hb b₂ (by simp)
      have hgap : u64sub b₂.start_ns b₁.end_ns = b₂.start_ns - b₁.end_ns :=
        u64sub_eq_sub (by omega) (by omega)
      have hterm : (thr : ℚ) / 1000 < ((u64sub b₂.start_ns b₁.end_ns : Nat) : ℚ) / 1000 := by
        rw [hgap]
        have hq : (thr : ℚ) < ((b₂.start_ns - b₁.end_ns : Nat) : ℚ) := by
          exact_mod_cast (by omega : thr < b₂.start_ns - b₁.end_ns)
        linarith
      match rest, hchain', hb with
      | [], _, _ =>
          show _ < ((u64sub b₂.start_ns b₁.end_ns : Nat) : ℚ) / 1000 + gapsSum [b₂]
          have h0 : gapsSum [b₂] = 0 := rfl
          rw [h0]
          simp only [List.length_cons, List.length_nil]
          push_cast
          linarith
      | b₃ :: rest, hchain', hb =>
          have ih := gapsSum_gt thr (b₂ :: b₃ :: rest) hchain'
            (fun b hmem => hb b (List.mem_cons_of_mem _ hmem)) (by simp)
          show _ < ((u64sub b₂.start_ns b₁.end_ns : Nat) : ℚ) / 1000 + gapsSum (b₂ :: b₃ :: rest)
          simp only [List.length_cons] at ih ⊢
          push_cast at ih ⊢
          linarith

/-- The mean inter-burst gap exceeds `thr/1000` µs when the bursts are
separated by more than `thr` ns and there are at least two of them. -/
theorem avgGapOf_gt (thr : Nat) (bs : List Burst)
    (hchain : List.Chain' (fun b₁ b₂ => b₁.end_ns + thr < b₂.start_ns) bs)
    (hb : ∀ b ∈ bs, b.start_ns < 2 ^ 64)
    (hlen : 2 ≤ bs.length) :
    (thr : ℚ) / 1000 < avgGapOf bs := by
  rw [avgGapOf, if_pos (by omega : 1 < bs.length)]
  have h := gapsSum_gt thr bs hchain hb hlen
  have hpos : (0 : ℚ) < (bs.length : ℚ) - 1 := by
    have h2 : (2 : ℚ) ≤ (bs.length : ℚ) := by exact_mod_cast hlen
    linarith
  rw [lt_div_iff₀ hpos]
  linarith

/-- Bursts that start and end at the same instant contribute no burst time. -/
theorem burstTimeSum_degenerate (bs : List Burst)
    (h : ∀ b ∈ bs, b.end_ns = b.start_ns) : burstTimeSum bs = 0 := by
  induction bs with
  | nil => rfl
  | cons b rest ih =>
      rw [burstTimeSum, List.map_cons, List.sum_cons]
      rw [h b (List.mem_cons_self b rest), u64sub_self]
      have hrest := ih (fun b hb => h b (List.mem_cons_of_mem _ hb))
      rw [burstTimeSum] at hrest
      rw [hrest]
      norm_num

/-- Every class in the JSON report has at least 10 observations. -/
theorem printedClasses_min (data : List TcAnalysis) :
    ∀ pr ∈ printedClasses data, 10 ≤ pr.2.packets.length := by
  intro pr hpr
  have h := (List.mem_filter.mp hpr).2
  exact of_decide_eq_true h

/-- `packet_handler` preserves store consistency (for a nonzero-timestamp
observation). -/
theorem packet_handler_preserves (tc : TcAnalysis) (p : Packet)
    (hc : storeConsistent tc) (hp : p.ts_ns ≠ 0) :
    storeConsistent (packet_handler tc p) := by
  obtain ⟨hbytes, hfirst, hlast, hlen, hts⟩ := hc
  rw [packet_handler]
  split
  · next hroom =>
      refine ⟨?_, ?_, ?_, ?_, ?_⟩
      · simp [hbytes]
      · rcases hpk : tc.packets with _ | ⟨q, rest⟩
        · rw [hpk] at hfirst
          simp only [List.head?_nil, Option.map_none, Option.getD_none] at hfirst
          simp [hpk, hfirst]
        · have hq : q.ts_ns ≠ 0 := hts q (by rw [hpk]; exact List.mem_cons_self q rest)
          rw [hpk] at hfirst
          simp only [List.head?_cons, Option.map_some, Option.getD_some] at hfirst
          simp only [hpk, List.cons_append, List.head?_cons, Option.map_some, Option.getD_some]
          rw [if_neg (by rw [hfirst]; exact hq), hfirst]
      · simp [List.getLast?_concat]
      · simp only [List.length_append, List.length_singleton]
        omega
      · intro q hq
        rcases List.mem_append.mp hq with h | h
        · exact hts q h
        · rw [List.mem_singleton.mp h]
          exact hp
  · exact ⟨hbytes, hfirst, hlast, hlen, hts⟩

/-- Folding appends over a consistent store keeps it consistent. -/
theorem foldl_packet_handler_consistent :
    ∀ (obs : List Packet) (tc : TcAnalysis), storeConsistent tc →
      (∀ p ∈ obs, p.ts_ns ≠ 0) → storeConsistent (obs.foldl packet_handler tc)
  | [], _tc, hc, _ => hc
  | p :: obs, tc, hc, hts =>
      foldl_packet_handler_consistent obs (packet_handler tc p)
        (packet_handler_preserves tc p hc (hts p (List.mem_cons_self p obs)))
        (fun q hq => hts q (List.mem_cons_of_mem _ hq))

theorem storeConsistent_empty : storeConsistent {} := by
  refine ⟨rfl, rfl, rfl, ?_, ?_⟩
  · show (0 : Nat) ≤ MAX_PACKETS
    exact Nat.zero_le _
  · intro p hp
    simp at hp

end CbsEstimator

namespace Fixtures

open TsnModel

theorem singletonBursts_length (s len : Nat) :
    ∀ (m base : Nat), (singletonBursts s len base m).length = m
  | 0, _ => rfl
  | m + 1, base => by
      rw [singletonBursts, List.length_cons, singletonBursts_length s len m]

theorem singletonBursts_chain (s len thr : Nat) (hthr : thr < s) :
    ∀ (m base : Nat),
      List.Chain' (fun b₁ b₂ : Burst => b₁.end_ns + thr < b₂.start_ns)
        (singletonBursts s len base m)
  | 0, _ => List.chain'_nil
  | 1, _ => by rw [singletonBursts, singletonBursts]; exact List.chain'_singleton _
  | m + 2, base => by
      rw [singletonBursts, singletonBursts, List.chain'_cons]
      refine ⟨by show base + thr < base + s; omega, ?_⟩
      have h := singletonBursts_chain s len thr hthr (m + 1) (base + s)
      rw [singletonBursts] at h
      exact h

theorem singletonBursts_degenerate (s len : Nat) :
    ∀ (m base : Nat), ∀ b ∈ singletonBursts s len base m, b.end_ns = b.start_ns
  | 0, _ => by intro b hb; simp [singletonBursts] at hb
  | m + 1, base => by
      intro b hb
      rw [singletonBursts] at hb
      rcases List.mem_cons.mp hb with h | h
      · subst h; rfl
      · exact singletonBursts_degenerate s len m (base + s) b h

theorem singletonBursts_start_bound (s len : Nat) :
    ∀ (m base : Nat), base + m * s < 2 ^ 64 →
      ∀ b ∈ singletonBursts s len base m, b.start_ns < 2 ^ 64
  | 0, _, _ => by intro b hb; simp [singletonBursts] at hb
  | m + 1, base, hbound => by
      intro b hb
      have hexp : (m + 1) * s = m * s + s := by ring
      rw [hexp] at hbound
      rw [singletonBursts] at hb
      rcases List.mem_cons.mp hb with h | h
      · subst h
        show base < 2 ^ 64
        omega
      · exact singletonBursts_start_bound s len m (base + s) (by omega) b h

end Fixtures

namespace TasEstimator

open TsnModel

/-- The `tsn-verify.c` presence cutoff coincides with the specification's
`0.3 × mean` (minimum 1) formula. -/
theorem analyzeTasThreshold_eq (n : Nat) :
    TvTool.analyzeTasThreshold n = specThreshold n 100 := by
  rw [TvTool.analyzeTasThreshold, specThreshold]
  congr 1
  have h : ((n : ℚ) / 100) * (3 / 10) = ((3 * n : Nat) : ℚ) / ((10 * 100 : Nat) : ℚ) := by
    push_cast
    ring
  rw [h, Nat.floor_div_nat, Nat.floor_natCast]

/-- The `tas-estimator.c` presence cutoff is the specification's formula
applied to twice the observation count (the code doubles the mean). -/
theorem detectWindowsThreshold_eq (n size : Nat) :
    detectWindowsThreshold n size = specThreshold (2 * n) size := by
  rw [detectWindowsThreshold, specThreshold]
  congr 1
  have h : (((n : ℚ) * 2) / (size : ℚ)) * (3 / 10)
      = ((3 * (2 * n) : Nat) : ℚ) / ((10 * size : Nat) : ℚ) := by
    push_cast
    ring
  rw [h, Nat.floor_div_nat, Nat.floor_natCast]

end TasEstimator

namespace Claims

open TsnModel

/-- Claim C3 (amended).  For every class with at least 10 observations and a
positive bin count, the `tsn-verify.c` analyser's presence cutoff equals the
specification's `max 1 ⌊0.3 × (n / bins)⌋` with its 100 bins; the
`tas-estimator.c` window detector instead applies that formula to twice the
observation count (its `mean` variable is `packet_count * 2.0 /
histogram_size`), so its cutoff is `max 1 ⌊0.3 × (2n / bins)⌋`, not the
claimed `max 1 ⌊0.3 × (n / bins)⌋`.  In both, a bin is "gate open" exactly
when its count is at or above the cutoff. -/
theorem c3_presence_threshold (n size : Nat) (_hn : 10 ≤ n) (_hsize : 0 < size) :
    TvTool.analyzeTasThreshold n = TasEstimator.specThreshold n 100
    ∧ TasEstimator.detectWindowsThreshold n size = TasEstimator.specThreshold (2 * n) size :=
  ⟨TasEstimator.analyzeTasThreshold_eq n, TasEstimator.detectWindowsThreshold_eq n size⟩

/-- Witness for C3 at `n = 1000`, `size = 2000`. -/
theorem c3_presence_threshold_witness :
    TvTool.analyzeTasThreshold 1000 = TasEstimator.specThreshold 1000 100
    ∧ TasEstimator.detectWindowsThreshold 1000 2000
      = TasEstimator.specThreshold (2 * 1000) 2000 :=
  c3_presence_threshold 1000 2000 (by decide) (by decide)

/-- Counterexample to C3 as stated: at 11000 observations over 2000 bins the
`tas-estimator.c` cutoff is 3 (`⌊0.3 × 11⌋`, mean doubled), while the claimed
formula gives 1 (`max 1 ⌊0.3 × 5.5⌋`). -/
theorem c3_counterexample :
    TasEstimator.detectWindowsThreshold 11000 2000
      ≠ TasEstimator.specThreshold 11000 2000 := by
  rw [TasEstimator.detectWindowsThreshold_eq]
  decide

/-- Claim C10.  The per-class sample-store append is all-or-nothing: folding
any sequence of nonzero-timestamp observations into the empty store keeps the
store consistent (byte total = sum of stored lengths, `first_ts`/`last_ts`
the first/last stored timestamps, capacity respected); an append to a full
store leaves every field unchanged, and an append to a non-full store stores
exactly the new observation. -/
theorem c10_store_append (obs : List Packet) (hts : ∀ p ∈ obs, p.ts_ns ≠ 0) :
    CbsEstimator.storeConsistent (obs.foldl CbsEstimator.packet_handler {})
    ∧ (∀ (tc : CbsEstimator.TcAnalysis) (p : Packet),
        ¬tc.packets.length < CbsEstimator.MAX_PACKETS →
          CbsEstimator.packet_handler tc p = tc)
    ∧ (∀ (tc : CbsEstimator.TcAnalysis) (p : Packet),
        tc.packets.length < CbsEstimator.MAX_PACKETS →
          (CbsEstimator.packet_handler tc p).packets = tc.packets ++ [p]) := by
  refine ⟨CbsEstimator.foldl_packet_handler_consistent obs {}
    CbsEstimator.storeConsistent_empty hts, ?_, ?_⟩
  · intro tc p h
    rw [CbsEstimator.packet_handler, if_neg h]
  · intro tc p h
    rw [CbsEstimator.packet_handler, if_pos h]

/-- Witness for C10 at a concrete 2-observation sequence. -/
theorem c10_store_append_witness :
    CbsEstimator.storeConsistent
        ([(⟨5, 10⟩ : Packet), ⟨7, 20⟩].foldl CbsEstimator.packet_handler {})
    ∧ (∀ (tc : CbsEstimator.TcAnalysis) (p : Packet),
        ¬tc.packets.length < CbsEstimator.MAX_PACKETS →
          CbsEstimator.packet_handler tc p = tc)
    ∧ (∀ (tc : CbsEstimator.TcAnalysis) (p : Packet),
        tc.packets.length < CbsEstimator.MAX_PACKETS →
          (CbsEstimator.packet_handler tc p).packets = tc.packets ++ [p]) :=
  c10_store_append [⟨5, 10⟩, ⟨7, 20⟩]
    (by intro p hp; fin_cases hp <;> decide)

/-- Claim C9 (amended).  Each of the three "insufficient data" conditions
(fewer than 10 observations, no burst, zero observed duration) makes
`analyze_cbs` leave the store untouched — no estimate field is computed —
and every class the JSON report prints has at least 10 observations; but the
report's filter checks only the observation count, so a class with ≥ 10
observations and zero duration is still printed, with zero-valued fields
(see the counterexample). -/
theorem c9_no_estimate (tc : CbsEstimator.TcAnalysis)
    (h : tc.packets.length < 10 ∨ tc.bursts.length < 1
      ∨ u64sub tc.last_ts tc.first_ts = 0) :
    CbsEstimator.analyze_cbs tc = tc
    ∧ ∀ (data : List CbsEstimator.TcAnalysis),
        ∀ pr ∈ CbsEstimator.printedClasses data, 10 ≤ pr.2.packets.length :=
  ⟨CbsEstimator.analyze_cbs_unchanged tc h,
    fun data => CbsEstimator.printedClasses_min data⟩

/-- Witness for C9 at a 3-observation store. -/
theorem c9_no_estimate_witness :
    CbsEstimator.analyze_cbs (Fixtures.trainStore (Fixtures.uniformTrain 3 100000))
        = Fixtures.trainStore (Fixtures.uniformTrain 3 100000)
    ∧ ∀ (data : List CbsEstimator.TcAnalysis),
        ∀ pr ∈ CbsEstimator.printedClasses data, 10 ≤ pr.2.packets.length :=
  c9_no_estimate (Fixtures.trainStore (Fixtures.uniformTrain 3 100000))
    (Or.inl (by decide))

/-- Counterexample to C9 as stated: a class with 10 observations all sharing
one timestamp has zero observed duration, so no field is computed — yet the
report's per-class filter (`packet_count < 10 → skip`) still prints it, with
`measured_bps`, `estimated_idle_slope` 0 and `is_shaped` false presented
like any real estimate. -/
theorem c9_counterexample :
    CbsEstimator.printedClasses
        [CbsEstimator.analyze_cbs (CbsEstimator.detect_bursts Fixtures.zeroDurationStore)]
      = [(0, CbsEstimator.analyze_cbs (CbsEstimator.detect_bursts Fixtures.zeroDurationStore))]
    ∧ u64sub (CbsEstimator.detect_bursts Fixtures.zeroDurationStore).last_ts
        (CbsEstimator.detect_bursts Fixtures.zeroDurationStore).first_ts = 0
    ∧ (CbsEstimator.analyze_cbs (CbsEstimator.detect_bursts
        Fixtures.zeroDurationStore)).measured_bps = 0
    ∧ (CbsEstimator.analyze_cbs (CbsEstimator.detect_bursts
        Fixtures.zeroDurationStore)).estimated_idle_slope = 0
    ∧ (CbsEstimator.analyze_cbs (CbsEstimator.detect_bursts
        Fixtures.zeroDurationStore)).is_shaped = false := by
  have hA : CbsEstimator.analyze_cbs (CbsEstimator.detect_bursts Fixtures.zeroDurationStore)
      = CbsEstimator.detect_bursts Fixtures.zeroDurationStore :=
    CbsEstimator.analyze_cbs_unchanged _ (Or.inr (Or.inr (by decide)))
  rw [hA]
  refine ⟨?_, by decide, rfl, rfl, rfl⟩
  decide

end Claims

namespace Claims

open TsnModel

set_option maxRecDepth 4400 in
set_option maxHeartbeats 1600000 in
/-- Claim C5 (amended).  At 1000 observations with uniform spacing *below*
the 500 µs gap threshold (100 µs here — the claimed 1 ms spacing exceeds the
threshold, see the counterexample), the `cbs-estimator.c` pipeline yields a
single burst, a burst ratio of exactly 1, and `is_shaped = false`. -/
theorem c5_uniform_unshaped :
    (CbsEstimator.analyze_cbs (CbsEstimator.detect_bursts
        (Fixtures.trainStore (Fixtures.uniformTrain 1000 100000)))).bursts.length = 1
    ∧ (CbsEstimator.analyze_cbs (CbsEstimator.detect_bursts
        (Fixtures.trainStore (Fixtures.uniformTrain 1000 100000)))).burst_ratio = 1
    ∧ (CbsEstimator.analyze_cbs (CbsEstimator.detect_bursts
        (Fixtures.trainStore (Fixtures.uniformTrain 1000 100000)))).is_shaped = false := by
  have h1 : ¬((CbsEstimator.detect_bursts
        (Fixtures.trainStore (Fixtures.uniformTrain 1000 100000))).packets.length < 10
      ∨ (CbsEstimator.detect_bursts
        (Fixtures.trainStore (Fixtures.uniformTrain 1000 100000))).bursts.length < 1) := by
    decide
  have hu : u64sub (CbsEstimator.detect_bursts
        (Fixtures.trainStore (Fixtures.uniformTrain 1000 100000))).last_ts
      (CbsEstimator.detect_bursts
        (Fixtures.trainStore (Fixtures.uniformTrain 1000 100000))).first_ts = 99900000 := by
    decide
  have h2 : ¬(CbsEstimator.observedDuration_s
      (CbsEstimator.detect_bursts
        (Fixtures.trainStore (Fixtures.uniformTrain 1000 100000))).last_ts
      (CbsEstimator.detect_bursts
        (Fixtures.trainStore (Fixtures.uniformTrain 1000 100000))).first_ts ≤ 0) := by
    rw [CbsEstimator.observedDuration_s, hu]
    norm_num
  have hb : (CbsEstimator.detect_bursts
        (Fixtures.trainStore (Fixtures.uniformTrain 1000 100000))).bursts
      = [⟨1000000000, 1099900000, 100000, 1000⟩] := by
    decide
  rw [CbsEstimator.analyze_cbs_eq _ h1 h2]
  dsimp only
  rw [hb, CbsEstimator.observedDuration_s, hu]
  refine ⟨rfl, ?_, ?_⟩
  · rw [CbsEstimator.burstRatioOf, CbsEstimator.burstTimeSum]
    have hu2 : u64sub 1099900000 1000000000 = 99900000 := by decide
    simp only [List.map_cons, List.map_nil, List.sum_cons, List.sum_nil, hu2]
    norm_num
  · have hag : CbsEstimator.avgGapOf [(⟨1000000000, 1099900000, 100000, 1000⟩ : Burst)] = 0 := by
      rw [CbsEstimator.avgGapOf, if_neg (by simp)]
    rw [hag]
    have hdec : decide ((0 : ℚ) > 100) = false := by decide
    rw [hdec, Bool.false_and, Bool.false_and]

end Claims

namespace Claims

open TsnModel

set_option maxRecDepth 4400 in
set_option maxHeartbeats 1600000 in
/-- Counterexample to C5 as stated: 1000 observations at the claimed 1 ms
spacing have every inter-packet gap (1 ms) above the 500 µs threshold, so the
code produces 1000 bursts (not 1), a burst ratio of 0 (not ≈ 1), and
classifies the class as shaped (`is_shaped = true`, not `false`). -/
theorem c5_counterexample :
    (CbsEstimator.analyze_cbs (CbsEstimator.detect_bursts
        (Fixtures.trainStore (Fixtures.uniformTrain 1000 1000000)))).bursts.length = 1000
    ∧ ¬(CbsEstimator.analyze_cbs (CbsEstimator.detect_bursts
        (Fixtures.trainStore (Fixtures.uniformTrain 1000 1000000)))).bursts.length = 1
    ∧ (CbsEstimator.analyze_cbs (CbsEstimator.detect_bursts
        (Fixtures.trainStore (Fixtures.uniformTrain 1000 1000000)))).burst_ratio = 0
    ∧ (CbsEstimator.analyze_cbs (CbsEstimator.detect_bursts
        (Fixtures.trainStore (Fixtures.uniformTrain 1000 1000000)))).is_shaped = true := by
  have h1 : ¬((CbsEstimator.detect_bursts
        (Fixtures.trainStore (Fixtures.uniformTrain 1000 1000000))).packets.length < 10
      ∨ (CbsEstimator.detect_bursts
        (Fixtures.trainStore (Fixtures.uniformTrain 1000 1000000))).bursts.length < 1) := by
    decide
  have hu : u64sub (CbsEstimator.detect_bursts
        (Fixtures.trainStore (Fixtures.uniformTrain 1000 1000000))).last_ts
      (CbsEstimator.detect_bursts
        (Fixtures.trainStore (Fixtures.uniformTrain 1000 1000000))).first_ts = 999000000 := by
    decide
  have h2 : ¬(CbsEstimator.observedDuration_s
      (CbsEstimator.detect_bursts
        (Fixtures.trainStore (Fixtures.uniformTrain 1000 1000000))).last_ts
      (CbsEstimator.detect_bursts
        (Fixtures.trainStore (Fixtures.uniformTrain 1000 1000000))).first_ts ≤ 0) := by
    rw [CbsEstimator.observedDuration_s, hu]
    norm_num
  have hb : (CbsEstimator.detect_bursts
        (Fixtures.trainStore (Fixtures.uniformTrain 1000 1000000))).bursts
      = Fixtures.singletonBursts 1000000 100 1000000000 1000 := by
    decide
  have hlen : (Fixtures.singletonBursts 1000000 100 1000000000 1000).length = 1000 :=
    Fixtures.singletonBursts_length _ _ _ _
  have hzero : CbsEstimator.burstTimeSum (Fixtures.singletonBursts 1000000 100 1000000000 1000)
      = 0 :=
    CbsEstimator.burstTimeSum_degenerate _ (Fixtures.singletonBursts_degenerate _ _ _ _)
  rw [CbsEstimator.analyze_cbs_eq _ h1 h2]
  dsimp only
  rw [hb]
  refine ⟨hlen, by rw [hlen]; decide, ?_, ?_⟩
  · rw [CbsEstimator.burstRatioOf, hzero, zero_div]
  · simp only [Bool.and_eq_true, decide_eq_true_eq]
    refine ⟨⟨?_, ?_⟩, ?_⟩
    · have havg := CbsEstimator.avgGapOf_gt 500000
        (Fixtures.singletonBursts 1000000 100 1000000000 1000)
        (Fixtures.singletonBursts_chain 1000000 100 500000 (by norm_num) 1000 1000000000)
        (Fixtures.singletonBursts_start_bound 1000000 100 1000 1000000000 (by norm_num))
        (by omega)
      have h500 : ((500000 : Nat) : ℚ) / 1000 = 500 := by norm_num
      rw [h500] at havg
      linarith
    · omega
    · rw [CbsEstimator.burstRatioOf, hzero, zero_div]
      norm_num

end Claims

namespace TvTool

open TsnModel

/-- Unfolding of `tsn-verify.c`'s `analyze_cbs` when its preconditions
hold. -/
theorem tv_analyze_cbs_eq (tc : TcData)
    (h1 : ¬tc.packets.length < 10)
    (h2 : ¬(CbsEstimator.observedDuration_s tc.last_ts tc.first_ts ≤ 0)) :
    analyze_cbs tc = { tc with
      measured_bps := ((tc.total_bytes : ℚ) * 8)
        / CbsEstimator.observedDuration_s tc.last_ts tc.first_ts
      burst_ratio := CbsEstimator.burstRatioOf tc.bursts
        (CbsEstimator.observedDuration_s tc.last_ts tc.first_ts)
      is_shaped := decide (CbsEstimator.burstRatioOf tc.bursts
          (CbsEstimator.observedDuration_s tc.last_ts tc.first_ts) < 85 / 100)
        && decide (tc.bursts.length > 3)
      estimated_idle_slope := ((tc.total_bytes : ℚ) * 8)
        / CbsEstimator.observedDuration_s tc.last_ts tc.first_ts } := by
  simp only [analyze_cbs, if_neg h1, if_neg h2]

end TvTool

namespace Claims

open TsnModel

/-- Claim C6 (confirmed).  Under the estimator preconditions, the
`cbs-estimator.c` shaped classification is exactly the conjunction
`avg_gap_duration_us > 100 ∧ burst_count > 3 ∧ burst_ratio < 0.85`, and the
reported confidence is `"high"` exactly when shaped (`"low"` otherwise).
The `tsn-verify.c` variant omits the gap test from its code, but on
segmenter-produced bursts (consecutive bursts separated by more than the
500 µs threshold, timestamps below `2^64`) its two-term rule coincides with
the same three-term conjunction, because more than 3 bursts force a mean
inter-burst gap above 500 µs > 100 µs. -/
theorem c6_shaping_rule (tc : CbsEstimator.TcAnalysis) (tv : TvTool.TcData)
    (h1 : 10 ≤ tc.packets.length) (h2 : 1 ≤ tc.bursts.length)
    (h3 : u64sub tc.last_ts tc.first_ts ≠ 0)
    (htv1 : 10 ≤ tv.packets.length)
    (htv3 : u64sub tv.last_ts tv.first_ts ≠ 0)
    (hgaps : List.Chain' (fun b₁ b₂ => b₁.end_ns + TvTool.GAP_THRESHOLD_NS < b₂.start_ns)
      tv.bursts)
    (hbnd : ∀ b ∈ tv.bursts, b.start_ns < 2 ^ 64) :
    ((CbsEstimator.analyze_cbs tc).is_shaped = true ↔
      (CbsEstimator.avgGapOf tc.bursts > 100 ∧ tc.bursts.length > 3
        ∧ CbsEstimator.burstRatioOf tc.bursts
            (CbsEstimator.observedDuration_s tc.last_ts tc.first_ts) < 85 / 100))
    ∧ (CbsEstimator.confidence (CbsEstimator.analyze_cbs tc) = "high" ↔
        (CbsEstimator.analyze_cbs tc).is_shaped = true)
    ∧ ((TvTool.analyze_cbs tv).is_shaped = true ↔
      (CbsEstimator.avgGapOf tv.bursts > 100 ∧ tv.bursts.length > 3
        ∧ CbsEstimator.burstRatioOf tv.bursts
            (CbsEstimator.observedDuration_s tv.last_ts tv.first_ts) < 85 / 100)) := by
  have hdur : ∀ last first : Nat, u64sub last first ≠ 0 →
      ¬(CbsEstimator.observedDuration_s last first ≤ 0) := by
    intro last first hne
    rw [CbsEstimator.observedDuration_s, not_le]
    have hpos : 0 < ((u64sub last first : Nat) : ℚ) := by
      exact_mod_cast Nat.pos_of_ne_zero hne
    positivity
  have hA := CbsEstimator.analyze_cbs_eq tc (by omega) (hdur _ _ h3)
  have hB := TvTool.tv_analyze_cbs_eq tv (by omega) (hdur _ _ htv3)
  refine ⟨?_, ?_, ?_⟩
  · rw [hA]
    dsimp only
    simp only [Bool.and_eq_true, decide_eq_true_eq]
    tauto
  · rw [CbsEstimator.confidence]
    rcases hs : (CbsEstimator.analyze_cbs tc).is_shaped <;> decide
  · rw [hB]
    dsimp only
    simp only [Bool.and_eq_true, decide_eq_true_eq]
    constructor
    · rintro ⟨hr, hl⟩
      refine ⟨?_, hl, hr⟩
      have havg := CbsEstimator.avgGapOf_gt TvTool.GAP_THRESHOLD_NS tv.bursts hgaps hbnd
        (by omega)
      have h500 : ((TvTool.GAP_THRESHOLD_NS : Nat) : ℚ) / 1000 = 500 := by
        rw [TvTool.GAP_THRESHOLD_NS]
        norm_num
      rw [h500] at havg
      linarith
    · rintro ⟨_, hl, hr⟩
      exact ⟨hr, hl⟩

end Claims

namespace Claims

open TsnModel

/-- Witness for C6 at a 20-observation store and a 5-burst class. -/
theorem c6_shaping_rule_witness :
    ((CbsEstimator.analyze_cbs (CbsEstimator.detect_bursts
        (Fixtures.trainStore (Fixtures.uniformTrain 20 1000000)))).is_shaped = true ↔
      (CbsEstimator.avgGapOf (CbsEstimator.detect_bursts
          (Fixtures.trainStore (Fixtures.uniformTrain 20 1000000))).bursts > 100
        ∧ (CbsEstimator.detect_bursts
            (Fixtures.trainStore (Fixtures.uniformTrain 20 1000000))).bursts.length > 3
        ∧ CbsEstimator.burstRatioOf
            (CbsEstimator.detect_bursts
              (Fixtures.trainStore (Fixtures.uniformTrain 20 1000000))).bursts
            (CbsEstimator.observedDuration_s
              (CbsEstimator.detect_bursts
                (Fixtures.trainStore (Fixtures.uniformTrain 20 1000000))).last_ts
              (CbsEstimator.detect_bursts
                (Fixtures.trainStore (Fixtures.uniformTrain 20 1000000))).first_ts)
            < 85 / 100))
    ∧ (CbsEstimator.confidence (CbsEstimator.analyze_cbs (CbsEstimator.detect_bursts
        (Fixtures.trainStore (Fixtures.uniformTrain 20 1000000)))) = "high" ↔
        (CbsEstimator.analyze_cbs (CbsEstimator.detect_bursts
          (Fixtures.trainStore (Fixtures.uniformTrain 20 1000000)))).is_shaped = true)
    ∧ ((TvTool.analyze_cbs Fixtures.shapedTv).is_shaped = true ↔
      (CbsEstimator.avgGapOf Fixtures.shapedTv.bursts > 100
        ∧ Fixtures.shapedTv.bursts.length > 3
        ∧ CbsEstimator.burstRatioOf Fixtures.shapedTv.bursts
            (CbsEstimator.observedDuration_s Fixtures.shapedTv.last_ts
              Fixtures.shapedTv.first_ts) < 85 / 100)) :=
  c6_shaping_rule
    (CbsEstimator.detect_bursts (Fixtures.trainStore (Fixtures.uniformTrain 20 1000000)))
    Fixtures.shapedTv
    (by decide) (by decide) (by decide) (by decide) (by decide)
    (Fixtures.singletonBursts_chain 1000000 100 TvTool.GAP_THRESHOLD_NS (by decide)
      5 1000000000)
    (Fixtures.singletonBursts_start_bound 1000000 100 5 1000000000 (by decide))

end Claims

namespace TasEstimator

open TsnModel

theorem windowScanStep_stay_high (threshold bin_size tc_idx v : Nat) (hv : threshold ≤ v)
    (ws : List GateWindow) (w0 i : Nat) :
    windowScanStep threshold bin_size tc_idx (ws, true, w0, i) v = (ws, true, w0, i + 1) := by
  simp [windowScanStep, Nat.not_lt.mpr hv]

theorem windowScanStep_stay_low (threshold bin_size tc_idx v : Nat) (hv : v < threshold)
    (ws : List GateWindow) (w0 i : Nat) :
    windowScanStep threshold bin_size tc_idx (ws, false, w0, i) v = (ws, false, w0, i + 1) := by
  simp [windowScanStep, Nat.not_le.mpr hv]

theorem windowScanStep_open (threshold bin_size tc_idx v : Nat) (hv : threshold ≤ v)
    (ws : List GateWindow) (w0 i : Nat) :
    windowScanStep threshold bin_size tc_idx (ws, false, w0, i) v = (ws, true, i, i + 1) := by
  simp [windowScanStep, hv]

theorem windowScanStep_close (threshold bin_size tc_idx v : Nat) (hv : v < threshold)
    (hws : ws.length < 16) (w0 i : Nat) :
    windowScanStep threshold bin_size tc_idx (ws, true, w0, i) v
      = (ws ++ [(⟨w0 * bin_size, (i - w0) * bin_size, tc_idx⟩ : GateWindow)], false, w0, i + 1) := by
  simp [windowScanStep, Nat.not_le.mpr hv, hv, hws]

theorem foldl_replicate_high (threshold bin_size tc_idx v : Nat) (hv : threshold ≤ v) :
    ∀ (n : Nat) (ws : List GateWindow) (w0 i : Nat),
      (List.replicate n v).foldl (windowScanStep threshold bin_size tc_idx) (ws, true, w0, i)
        = (ws, true, w0, i + n)
  | 0, ws, w0, i => rfl
  | n + 1, ws, w0, i => by
      rw [List.replicate_succ, List.foldl_cons,
        windowScanStep_stay_high threshold bin_size tc_idx v hv,
        foldl_replicate_high threshold bin_size tc_idx v hv n,
        show i + 1 + n = i + (n + 1) from by omega]

theorem foldl_replicate_low (threshold bin_size tc_idx v : Nat) (hv : v < threshold) :
    ∀ (n : Nat) (ws : List GateWindow) (w0 i : Nat),
      (List.replicate n v).foldl (windowScanStep threshold bin_size tc_idx) (ws, false, w0, i)
        = (ws, false, w0, i + n)
  | 0, ws, w0, i => rfl
  | n + 1, ws, w0, i => by
      rw [List.replicate_succ, List.foldl_cons,
        windowScanStep_stay_low threshold bin_size tc_idx v hv,
        foldl_replicate_low threshold bin_size tc_idx v hv n,
        show i + 1 + n = i + (n + 1) from by omega]

/-- A run of `n ≥ 1` above-threshold bins from a closed state opens one
window at the current position and stays open. -/
theorem foldl_replicate_opens (threshold bin_size tc_idx v n : Nat) (hv : threshold ≤ v)
    (hn : 1 ≤ n) (ws : List GateWindow) (w0 i : Nat) :
    (List.replicate n v).foldl (windowScanStep threshold bin_size tc_idx) (ws, false, w0, i)
      = (ws, true, i, i + n) := by
  match n, hn with
  | m + 1, _ =>
      rw [List.replicate_succ, List.foldl_cons,
        windowScanStep_open threshold bin_size tc_idx v hv,
        foldl_replicate_high threshold bin_size tc_idx v hv m,
        show i + 1 + m = i + (m + 1) from by omega]

/-- A run of `n ≥ 1` below-threshold bins from an open state closes the
window (appending it, below the 16-window cap) and stays closed. -/
theorem foldl_replicate_closes (threshold bin_size tc_idx v n : Nat) (hv : v < threshold)
    (hn : 1 ≤ n) (ws : List GateWindow) (hws : ws.length < 16) (w0 i : Nat) :
    (List.replicate n v).foldl (windowScanStep threshold bin_size tc_idx) (ws, true, w0, i)
      = (ws ++ [(⟨w0 * bin_size, (i - w0) * bin_size, tc_idx⟩ : GateWindow)], false, w0, i + n) := by
  match n, hn with
  | m + 1, _ =>
      rw [List.replicate_succ, List.foldl_cons,
        windowScanStep_close threshold bin_size tc_idx v hv hws,
        foldl_replicate_low threshold bin_size tc_idx v hv m,
        show i + 1 + m = i + (m + 1) from by omega]

end TasEstimator

namespace Claims

open TsnModel

/-- Claim C4 (code bug).  On a class whose above-threshold region wraps the
cycle boundary (histogram bins 0–399 and 1600–1999 occupied, 10 ms cycle),
`detect_windows` reports TWO windows — `[0, 2 ms)` and `[8 ms, 10 ms)` —
contradicting the claim (and the code's own wrap-around comment).  The merge
branch after the scan tests `in_window`, but the loop's synthetic closing
bin at `i = histogram_size` has already reset `in_window` to false (the
threshold is at least 1, so the zero bin is never "open"), making the merge
unreachable. -/
theorem c4_wrap_window_split :
    (TasEstimator.detect_windows Fixtures.wrapTc 10000000 0).windows
      = [⟨0, 2000000, 0⟩, ⟨8000000, 2000000, 0⟩]
    ∧ (TasEstimator.detect_windows Fixtures.wrapTc 10000000 0).windows.length = 2 := by
  have hsize : Fixtures.wrapTc.histogram_size = 2000 := rfl
  have hplen : Fixtures.wrapTc.packets.length = 2000 := by
    show (List.replicate 2000 (⟨0, 0⟩ : Packet)).length = 2000
    rw [List.length_replicate]
  have hcond : ¬(Fixtures.wrapTc.histogram_size = 0 ∨ Fixtures.wrapTc.packets.length < 10) := by
    rw [hsize, hplen]
    norm_num
  have hthr : TasEstimator.detectWindowsThreshold Fixtures.wrapTc.packets.length
      Fixtures.wrapTc.histogram_size = 1 := by
    rw [hplen, hsize, TasEstimator.detectWindowsThreshold_eq]
    decide
  have hhist : Fixtures.wrapTc.histogram
      = List.replicate 400 3 ++ List.replicate 1200 0 ++ List.replicate 400 2 := rfl
  have htake : Fixtures.wrapTc.histogram.take Fixtures.wrapTc.histogram_size
      = List.replicate 400 3 ++ List.replicate 1200 0 ++ List.replicate 400 2 := by
    rw [hhist, hsize]
    exact List.take_of_length_le (by simp only [List.length_append, List.length_replicate]; norm_num)
  have hws16 : ([] ++ [(⟨0 * 5000, (0 + 400 - 0) * 5000, 0⟩ : TasEstimator.GateWindow)]).length
      < 16 := by decide
  have hscan : TasEstimator.windowScan
      (List.replicate 400 3 ++ List.replicate 1200 0 ++ List.replicate 400 2) 1 5000 0
      = ([⟨0, 2000000, 0⟩, ⟨8000000, 2000000, 0⟩], false) := by
    rw [TasEstimator.windowScan]
    rw [List.foldl_append, List.foldl_append, List.foldl_append]
    rw [TasEstimator.foldl_replicate_opens 1 5000 0 3 400 (by norm_num) (by norm_num)]
    rw [TasEstimator.foldl_replicate_closes 1 5000 0 0 1200 (by norm_num) (by norm_num)
      [] (by decide)]
    rw [TasEstimator.foldl_replicate_opens 1 5000 0 2 400 (by norm_num) (by norm_num)]
    rw [List.foldl_cons, List.foldl_nil]
    rw [TasEstimator.windowScanStep_close 1 5000 0 0 (by norm_num) hws16]
    decide
  simp only [TasEstimator.detect_windows, if_neg hcond]
  rw [hthr, htake, hsize]
  have hbs : (10000000 : Nat) / 2000 = 5000 := by norm_num
  rw [hbs, hscan]
  refine ⟨?_, ?_⟩ <;> simp

end Claims

namespace Fixtures

/-- A small TAS class store: 12 observations, below the 100-observation
qualification cutoff of `detect_cycle_time`. -/
def tinyTas : TasEstimator.TcData :=
  { packets := trainFrom 1000 100 0 12, first_ts := 0, last_ts := 11000 }

/-- A second small TAS class store (7 observations, different contents),
also below the qualification cutoff. -/
def tinyTas2 : TasEstimator.TcData :=
  { packets := trainFrom 2000 200 5 7, first_ts := 5, last_ts := 12005 }

/-- The 64 boundary events of `manyWindows` in a 1000 ns cycle, written out:
already time-sorted, so the exchange sort leaves them unchanged. -/
def manyEvents : List TasEstimator.Event :=
  [(⟨1, 0, true⟩ : TasEstimator.Event),
   ⟨3, 0, false⟩,
   ⟨5, 0, true⟩,
   ⟨7, 0, false⟩,
   ⟨9, 0, true⟩,
   ⟨11, 0, false⟩,
   ⟨13, 0, true⟩,
   ⟨15, 0, false⟩,
   ⟨17, 0, true⟩,
   ⟨19, 0, false⟩,
   ⟨21, 0, true⟩,
   ⟨23, 0, false⟩,
   ⟨25, 0, true⟩,
   ⟨27, 0, false⟩,
   ⟨29, 0, true⟩,
   ⟨31, 0, false⟩,
   ⟨33, 0, true⟩,
   ⟨35, 0, false⟩,
   ⟨37, 0, true⟩,
   ⟨39, 0, false⟩,
   ⟨41, 0, true⟩,
   ⟨43, 0, false⟩,
   ⟨45, 0, true⟩,
   ⟨47, 0, false⟩,
   ⟨49, 0, true⟩,
   ⟨51, 0, false⟩,
   ⟨53, 0, true⟩,
   ⟨55, 0, false⟩,
   ⟨57, 0, true⟩,
   ⟨59, 0, false⟩,
   ⟨61, 0, true⟩,
   ⟨63, 0, false⟩,
   ⟨65, 1, true⟩,
   ⟨67, 1, false⟩,
   ⟨69, 1, true⟩,
   ⟨71, 1, false⟩,
   ⟨73, 1, true⟩,
   ⟨75, 1, false⟩,
   ⟨77, 1, true⟩,
   ⟨79, 1, false⟩,
   ⟨81, 1, true⟩,
   ⟨83, 1, false⟩,
   ⟨85, 1, true⟩,
   ⟨87, 1, false⟩,
   ⟨89, 1, true⟩,
   ⟨91, 1, false⟩,
   ⟨93, 1, true⟩,
   ⟨95, 1, false⟩,
   ⟨97, 1, true⟩,
   ⟨99, 1, false⟩,
   ⟨101, 1, true⟩,
   ⟨103, 1, false⟩,
   ⟨105, 1, true⟩,
   ⟨107, 1, false⟩,
   ⟨109, 1, true⟩,
   ⟨111, 1, false⟩,
   ⟨113, 1, true⟩,
   ⟨115, 1, false⟩,
   ⟨117, 1, true⟩,
   ⟨119, 1, false⟩,
   ⟨121, 1, true⟩,
   ⟨123, 1, false⟩,
   ⟨125, 1, true⟩,
   ⟨127, 1, false⟩]

end Fixtures

namespace TasEstimator

/-- Two class lists related pointwise by "qualified classes are equal,
unqualified classes stay unqualified" have the same qualified sublist. -/
theorem qualified_filter_congr :
    ∀ {d₁ d₂ : List TcData},
      List.Forall₂ (fun a b => (100 ≤ a.packets.length → a = b) ∧
        (a.packets.length < 100 → b.packets.length < 100)) d₁ d₂ →
      d₁.filter (fun tc => decide (100 ≤ tc.packets.length))
        = d₂.filter (fun tc => decide (100 ≤ tc.packets.length)) := by
  intro d₁ d₂ h
  induction h with
  | nil => rfl
  | @cons a b l₁ l₂ hab htl ih =>
      by_cases hpa : 100 ≤ a.packets.length
      · have hba : a = b := hab.1 hpa
        subst hba
        simp only [List.filter_cons, decide_eq_true_eq, if_pos hpa, ih]
      · have hpb : b.packets.length < 100 := hab.2 (Nat.lt_of_not_le hpa)
        simp only [List.filter_cons, decide_eq_true_eq, if_neg hpa,
          if_neg (Nat.not_le.mpr hpb), ih]

/-- `detect_cycle_time` depends on the class list only through its qualified
sublist. -/
theorem detect_cycle_time_congr (d₁ d₂ : List TcData) (e : ℚ)
    (h : d₁.filter (fun tc => decide (100 ≤ tc.packets.length))
       = d₂.filter (fun tc => decide (100 ≤ tc.packets.length))) :
    detect_cycle_time d₁ e = detect_cycle_time d₂ e := by
  unfold detect_cycle_time
  rw [h]

/-- With no qualified class and no positive operator override,
`detect_cycle_time` returns 0. -/
theorem detect_cycle_time_none (data : List TcData) (e : ℚ)
    (h : ∀ tc ∈ data, tc.packets.length < 100) (he : ¬e > 0) :
    detect_cycle_time data e = 0 := by
  have hq : data.filter (fun tc => decide (100 ≤ tc.packets.length)) = [] := by
    rw [List.filter_eq_nil_iff]
    intro tc htc
    simp [Nat.not_le.mpr (h tc htc)]
  unfold detect_cycle_time
  rw [hq]
  simp [candidate_cycles, he]

end TasEstimator

namespace Claims

/-- Claim C7.  On a 10 ms cycle with class 0 open during [0 ms, 3 ms) and
class 1 open during [3 ms, 10 ms) (no other class has windows), `build_gcl`
outputs exactly two entries in order: gate mask 0b01 for 3 ms, then gate
mask 0b10 for 7 ms. -/
theorem c7_gcl_two_class :
    TasEstimator.build_gcl
        [[(⟨0, 3000000, 0⟩ : TasEstimator.GateWindow)],
         [(⟨3000000, 7000000, 1⟩ : TasEstimator.GateWindow)],
         [], [], [], [], [], []] 10000000
      = [(⟨1, 3000000⟩ : TasEstimator.GclEntry), ⟨2, 7000000⟩] := by
  decide

/-- Claim C8.  With no operator override (expected cycle 0) and no class
reaching 100 observations, `detect_cycle_time` returns 0 — "no cycle
detected" — and the TAS analysis of `main` surfaces it as the terminal
error "Could not detect cycle time"; moreover classes with fewer than 100
observations never influence the detection: replacing each unqualified
class by any other unqualified class (and keeping qualified classes as
they are) leaves the detected cycle unchanged for every override value. -/
theorem c8_no_cycle (data d₁ d₂ : List TasEstimator.TcData) (e : ℚ)
    (h : ∀ tc ∈ data, tc.packets.length < 100)
    (h12 : List.Forall₂ (fun a b => (100 ≤ a.packets.length → a = b) ∧
        (a.packets.length < 100 → b.packets.length < 100)) d₁ d₂) :
    TasEstimator.detect_cycle_time data 0 = 0
    ∧ TasEstimator.tas_main_analysis data 0
        = Except.error "Could not detect cycle time"
    ∧ TasEstimator.detect_cycle_time d₁ e = TasEstimator.detect_cycle_time d₂ e := by
  have h0 : TasEstimator.detect_cycle_time data 0 = 0 :=
    TasEstimator.detect_cycle_time_none data 0 h (by norm_num)
  refine ⟨h0, ?_, ?_⟩
  · simp [TasEstimator.tas_main_analysis, h0]
  · exact TasEstimator.detect_cycle_time_congr d₁ d₂ e
      (TasEstimator.qualified_filter_congr h12)

/-- Witness for C8 at two concrete one-class lists, both below the
qualification cutoff. -/
theorem c8_no_cycle_witness :
    TasEstimator.detect_cycle_time [Fixtures.tinyTas] 0 = 0
    ∧ TasEstimator.tas_main_analysis [Fixtures.tinyTas] 0
        = Except.error "Could not detect cycle time"
    ∧ TasEstimator.detect_cycle_time [Fixtures.tinyTas] 2
        = TasEstimator.detect_cycle_time [Fixtures.tinyTas2] 2 :=
  c8_no_cycle [Fixtures.tinyTas] [Fixtures.tinyTas] [Fixtures.tinyTas2] 2
    (by intro tc htc; fin_cases htc; decide)
    (List.Forall₂.cons ⟨fun hge => absurd hge (by decide), fun _ => by decide⟩
      List.Forall₂.nil)

end Claims

/-! ## Lemmas about the GCL builder -/

namespace TasEstimator

/-- Folding a property-preserving step preserves the property. -/
theorem foldl_preserve {α β : Type _} (P : α → Prop) (f : α → β → α)
    (hf : ∀ a b, P a → P (f a b)) :
    ∀ (l : List β) (a : α), P a → P (l.foldl f a)
  | [], _, h => h
  | b :: l, a, h => foldl_preserve P f hf l (f a b) (hf a b h)

/-- Swapping two positions keeps the length. -/
theorem listSwap_length (l : List Event) (i j : Nat) :
    (listSwap l i j).length = l.length := by
  unfold listSwap
  rcases hi : l[i]? with _ | x
  · rfl
  · rcases hj : l[j]? with _ | y
    · rfl
    · simp

/-- Every element of a swapped list was an element of the list. -/
theorem listSwap_subset (l : List Event) (i j : Nat) :
    ∀ x ∈ listSwap l i j, x ∈ l := by
  unfold listSwap
  rcases hi : l[i]? with _ | a
  · exact fun x hx => hx
  · rcases hj : l[j]? with _ | b
    · exact fun x hx => hx
    · intro x hx
      have ha : a ∈ l := List.getElem?_mem hi
      have hb : b ∈ l := List.getElem?_mem hj
      rcases List.mem_or_eq_of_mem_set hx with hx' | hx'
      · rcases List.mem_or_eq_of_mem_set hx' with hx'' | hx''
        · exact hx''
        · exact hx'' ▸ hb
      · exact hx' ▸ ha

/-- The exchange sort keeps the length. -/
theorem sortEvents_length (l : List Event) : (sortEvents l).length = l.length := by
  unfold sortEvents
  refine foldl_preserve (fun a => a.length = l.length) _ ?_ _ l rfl
  intro a i ha
  exact foldl_preserve (fun a2 => a2.length = l.length)
    (fun a2 j => if timeAt a2 j < timeAt a2 i then listSwap a2 i j else a2)
    (fun a2 j ha2 => by
      dsimp only at ha2 ⊢
      by_cases hc : timeAt a2 j < timeAt a2 i
      · rw [if_pos hc, listSwap_length]; exact ha2
      · rw [if_neg hc]; exact ha2)
    (List.range' (i + 1) (a.length - (i + 1))) a ha

/-- Every element of the sorted event list was an input event. -/
theorem sortEvents_subset (l : List Event) : ∀ x ∈ sortEvents l, x ∈ l := by
  unfold sortEvents
  refine foldl_preserve (fun a => ∀ x ∈ a, x ∈ l) _ ?_ _ l (fun x hx => hx)
  intro a i ha
  exact foldl_preserve (fun a2 => ∀ x ∈ a2, x ∈ l)
    (fun a2 j => if timeAt a2 j < timeAt a2 i then listSwap a2 i j else a2)
    (fun a2 j ha2 x hx => by
      dsimp only at ha2 hx
      by_cases hc : timeAt a2 j < timeAt a2 i
      · rw [if_pos hc] at hx
        exact ha2 x (listSwap_subset a2 i j x hx)
      · rw [if_neg hc] at hx
        exact ha2 x hx)
    (List.range' (i + 1) (a.length - (i + 1))) a ha

/-- Flattening a map that sends each window to a two-element list doubles
the length. -/
theorem flatten_pairs_length (f : GateWindow → List Event)
    (hf : ∀ w, (f w).length = 2) :
    ∀ ws : List GateWindow, ((ws.map f).flatten).length = 2 * ws.length
  | [] => rfl
  | w :: ws => by
      rw [List.map_cons, List.flatten_cons, List.length_append, hf,
        flatten_pairs_length f hf ws, List.length_cons]
      omega

/-- `mkEvents` produces two events per window. -/
theorem mkEvents_length (cycle : Nat) :
    ∀ (t : Nat) (wins : List (List GateWindow)),
      (mkEvents cycle t wins).length = 2 * (wins.map List.length).sum
  | _, [] => rfl
  | t, ws :: rest => by
      rw [mkEvents, List.length_append, mkEvents_length cycle (t + 1) rest,
        flatten_pairs_length
          (fun w => [(⟨w.start_offset_ns, t, true⟩ : Event),
            ⟨(w.start_offset_ns + w.duration_ns) % cycle, t, false⟩])
          (fun w => rfl) ws, List.map_cons, List.sum_cons]
      omega

/-- When every window starts inside the cycle, every event time of
`mkEvents` is inside the cycle (end times wrap modulo the cycle). -/
theorem mkEvents_time_lt (cycle : Nat) (hC : 0 < cycle) :
    ∀ (t : Nat) (wins : List (List GateWindow)),
      (∀ ws ∈ wins, ∀ w ∈ ws, w.start_offset_ns < cycle) →
      ∀ ev ∈ mkEvents cycle t wins, ev.time < cycle
  | _, [], _, ev, hev => absurd hev (by rw [mkEvents]; exact List.not_mem_nil ev)
  | t, ws :: rest, h, ev, hev => by
      rw [mkEvents] at hev
      rcases List.mem_append.mp hev with hev | hev
      · rcases List.mem_flatten.mp hev with ⟨pair, hpair, hevp⟩
        rcases List.mem_map.mp hpair with ⟨w, hw, rfl⟩
        simp only [List.mem_cons, List.not_mem_nil, or_false] at hevp
        rcases hevp with rfl | rfl
        · exact h ws (List.mem_cons_self ws rest) w hw
        · exact Nat.mod_lt _ hC
      · exact mkEvents_time_lt cycle hC (t + 1) rest
          (fun ws' h' w hw => h ws' (List.mem_cons_of_mem _ h') w hw) ev hev

/-- The sweep invariant: when every event time fits the `uint32` duration
field, no stored difference wraps and the emitted durations sum to the
last emitted boundary time. -/
theorem sweep_sum :
    ∀ (events : List Event) (prev : Option Nat) (s : SweepState),
      (∀ ev ∈ events, ev.time < 2 ^ 32) →
      (s.gcl.map GclEntry.time_ns).sum = s.last_time →
      ((sweep events prev s).gcl.map GclEntry.time_ns).sum
        = (sweep events prev s).last_time
  | [], _, _, _, h => h
  | ev :: rest, prev, s, hev, h => by
      rw [sweep]
      have hev' : ∀ e ∈ rest, e.time < 2 ^ 32 :=
        fun e he => hev e (List.mem_cons_of_mem _ he)
      by_cases hcap : s.gcl.length < MAX_GCL_ENTRIES
      · rw [if_pos hcap]
        by_cases hprev : prev = some ev.time
        · rw [if_pos hprev]
          exact sweep_sum rest _ _ hev' h
        · rw [if_neg hprev]
          by_cases hadv : s.last_time < ev.time
          · rw [if_pos hadv]
            refine sweep_sum rest _ _ hev' ?_
            have hmod : (ev.time - s.last_time) % 2 ^ 32 = ev.time - s.last_time :=
              Nat.mod_eq_of_lt (lt_of_le_of_lt (Nat.sub_le _ _)
                (hev ev (List.mem_cons_self ev rest)))
            simp only [List.map_append, List.sum_append, List.map_cons,
              List.sum_cons, List.map_nil, List.sum_nil, hmod]
            omega
          · rw [if_neg hadv]
            exact sweep_sum rest _ _ hev' h
      · rw [if_neg hcap]
        exact h

/-- The sweep's last boundary time stays below the cycle when every event
time is. -/
theorem sweep_last_lt (C : Nat) :
    ∀ (events : List Event) (prev : Option Nat) (s : SweepState),
      (∀ ev ∈ events, ev.time < C) → s.last_time < C →
      (sweep events prev s).last_time < C
  | [], _, _, _, hs => hs
  | ev :: rest, prev, s, hev, hs => by
      rw [sweep]
      by_cases hcap : s.gcl.length < MAX_GCL_ENTRIES
      · rw [if_pos hcap]
        have hev' : ∀ e ∈ rest, e.time < C :=
          fun e he => hev e (List.mem_cons_of_mem _ he)
        by_cases hprev : prev = some ev.time
        · rw [if_pos hprev]
          exact sweep_last_lt C rest _ _ hev' hs
        · rw [if_neg hprev]
          by_cases hadv : s.last_time < ev.time
          · rw [if_pos hadv]
            exact sweep_last_lt C rest _ _ hev' (hev ev (List.mem_cons_self ev rest))
          · rw [if_neg hadv]
            exact sweep_last_lt C rest _ _ hev' hs
      · rw [if_neg hcap]
        exact hs

/-- The sweep emits at most one entry per event. -/
theorem sweep_len :
    ∀ (events : List Event) (prev : Option Nat) (s : SweepState),
      (sweep events prev s).gcl.length ≤ s.gcl.length + events.length
  | [], _, _ => Nat.le_add_right _ _
  | ev :: rest, prev, s => by
      rw [sweep]
      by_cases hcap : s.gcl.length < MAX_GCL_ENTRIES
      · rw [if_pos hcap]
        by_cases hprev : prev = some ev.time
        · rw [if_pos hprev]
          have h := sweep_len rest (some ev.time) { s with gates := applyEvent s.gates ev }
          simp at h ⊢
          omega
        · rw [if_neg hprev]
          by_cases hadv : s.last_time < ev.time
          · rw [if_pos hadv]
            have h := sweep_len rest (some ev.time)
              { gcl := s.gcl ++ [⟨s.gates, (ev.time - s.last_time) % 2 ^ 32⟩],
                gates := applyEvent s.gates ev, last_time := ev.time }
            simp at h ⊢
            omega
          · rw [if_neg hadv]
            have h := sweep_len rest (some ev.time) { s with gates := applyEvent s.gates ev }
            simp at h ⊢
            omega
      · rw [if_neg hcap]
        simp

/-- The run-length merge preserves the total duration, provided that total
fits the `uint32` duration field (so the merging `+=` never wraps). -/
theorem rleMergeAux_sum :
    ∀ (l acc : List GclEntry),
      (acc.map GclEntry.time_ns).sum + (l.map GclEntry.time_ns).sum < 2 ^ 32 →
      ((rleMergeAux acc l).map GclEntry.time_ns).sum
        = (acc.map GclEntry.time_ns).sum + (l.map GclEntry.time_ns).sum
  | [], acc, _ => by rw [rleMergeAux]; simp
  | e :: rest, acc, hb => by
      rw [rleMergeAux]
      split
      next lastE hlast =>
        have hcons : ((e :: rest).map GclEntry.time_ns).sum
            = e.time_ns + (rest.map GclEntry.time_ns).sum := by simp
        by_cases hmask : lastE.gate_states = e.gate_states
        · rw [if_pos hmask]
          have hne : acc ≠ [] := by rintro rfl; simp at hlast
          have hgl : lastE = acc.getLast hne := by
            rw [List.getLast?_eq_getLast acc hne] at hlast
            exact (Option.some_inj.mp hlast).symm
          have hacc : acc.dropLast ++ [lastE] = acc := by
            rw [hgl]; exact List.dropLast_append_getLast hne
          have hsplit : (acc.map GclEntry.time_ns).sum
              = (acc.dropLast.map GclEntry.time_ns).sum + lastE.time_ns := by
            conv_lhs => rw [← hacc]
            simp
          have hmod : (lastE.time_ns + e.time_ns) % 2 ^ 32
              = lastE.time_ns + e.time_ns :=
            Nat.mod_eq_of_lt (by omega)
          have hb2 : (((acc.dropLast
                ++ [(⟨lastE.gate_states, (lastE.time_ns + e.time_ns) % 2 ^ 32⟩ :
                    GclEntry)]).map GclEntry.time_ns).sum)
              + (rest.map GclEntry.time_ns).sum < 2 ^ 32 := by
            simp only [List.map_append, List.sum_append, List.map_cons,
              List.sum_cons, List.map_nil, List.sum_nil, hmod]
            omega
          rw [rleMergeAux_sum rest _ hb2]
          simp only [List.map_append, List.sum_append, List.map_cons,
            List.sum_cons, List.map_nil, List.sum_nil, hmod]
          omega
        · rw [if_neg hmask]
          have hb2 : (((acc ++ [e]).map GclEntry.time_ns).sum)
              + (rest.map GclEntry.time_ns).sum < 2 ^ 32 := by
            simp only [List.map_append, List.sum_append, List.map_cons,
              List.sum_cons, List.map_nil, List.sum_nil]
            omega
          rw [rleMergeAux_sum rest _ hb2]
          simp only [List.map_append, List.sum_append, List.map_cons,
            List.sum_cons, List.map_nil, List.sum_nil]
          omega
      next hlast =>
        have hacc : acc = [] := List.getLast?_eq_none_iff.mp hlast
        subst hacc
        have hb2 : (([e].map GclEntry.time_ns).sum)
            + (rest.map GclEntry.time_ns).sum < 2 ^ 32 := by
          simp only [List.map_cons, List.sum_cons, List.map_nil,
            List.sum_nil] at hb ⊢
          omega
        rw [rleMergeAux_sum rest _ hb2]
        simp

/-- The run-length merge's output never has two adjacent entries with the
same gate mask (given the accumulator already satisfies this). -/
theorem rleMergeAux_chain :
    ∀ (l acc : List GclEntry),
      List.Chain' (fun a b => a.gate_states ≠ b.gate_states) acc →
      List.Chain' (fun a b => a.gate_states ≠ b.gate_states) (rleMergeAux acc l)
  | [], _, h => by rw [rleMergeAux]; exact h
  | e :: rest, acc, h => by
      rw [rleMergeAux]
      split
      next lastE hlast =>
        by_cases hmask : lastE.gate_states = e.gate_states
        · rw [if_pos hmask]
          refine rleMergeAux_chain rest _ ?_
          have hne : acc ≠ [] := by rintro rfl; simp at hlast
          have hgl : lastE = acc.getLast hne := by
            rw [List.getLast?_eq_getLast acc hne] at hlast
            exact (Option.some_inj.mp hlast).symm
          have hacc : acc.dropLast ++ [lastE] = acc := by
            rw [hgl]; exact List.dropLast_append_getLast hne
          rw [← hacc] at h
          rw [List.chain'_append] at h ⊢
          refine ⟨h.1, List.chain'_singleton _, ?_⟩
          intro x hx y hy
          simp only [List.head?_cons, Option.mem_def, Option.some.injEq] at hy
          subst hy
          have hr := h.2.2 x hx lastE (by simp)
          simpa using hr
        · rw [if_neg hmask]
          refine rleMergeAux_chain rest _ ?_
          rw [List.chain'_append]
          refine ⟨h, List.chain'_singleton _, ?_⟩
          intro x hx y hy
          simp only [List.head?_cons, Option.mem_def, Option.some.injEq] at hy
          subst hy
          rw [hlast] at hx
          simp only [Option.mem_def, Option.some.injEq] at hx
          subst hx
          exact hmask
      next hlast =>
        exact rleMergeAux_chain rest [e] (List.chain'_singleton _)

/-- The exchange sort leaves a list whose times are already weakly sorted
unchanged: no comparison ever triggers a swap. -/
theorem sortEvents_id (l : List Event)
    (h : ∀ j, j < l.length → ∀ i, i ≤ j → timeAt l i ≤ timeAt l j) :
    sortEvents l = l := by
  unfold sortEvents
  refine foldl_preserve (fun a => a = l) _ ?_ _ l rfl
  intro a i ha
  dsimp only
  rw [ha]
  have key : ∀ (js : List Nat), (∀ j ∈ js, i + 1 ≤ j ∧ j < l.length) →
      js.foldl (fun a j => if timeAt a j < timeAt a i
        then listSwap a i j else a) l = l := by
    intro js
    induction js with
    | nil => exact fun _ => rfl
    | cons j js ih =>
        intro hj
        rw [List.foldl_cons]
        have hb := hj j (List.mem_cons_self j js)
        have hle : timeAt l i ≤ timeAt l j := h j hb.2 i (by omega)
        rw [if_neg (Nat.not_lt.mpr hle)]
        exact ih (fun j2 hj2 => hj j2 (List.mem_cons_of_mem _ hj2))
  refine key _ ?_
  intro j hj
  have hm := List.mem_range'_1.mp hj
  omega

/-- `build_gcl` unfolded to its sweep pipeline (definitional). -/
theorem build_gcl_eq (wins : List (List GateWindow)) (C : Nat) :
    build_gcl wins C =
      rleMerge
        (if (sweep (sortEvents (mkEvents C 0 wins)) none
              ⟨[], initialGates C 0 0 wins, 0⟩).last_time < C
            ∧ (sweep (sortEvents (mkEvents C 0 wins)) none
              ⟨[], initialGates C 0 0 wins, 0⟩).gcl.length < MAX_GCL_ENTRIES then
           (sweep (sortEvents (mkEvents C 0 wins)) none
              ⟨[], initialGates C 0 0 wins, 0⟩).gcl
             ++ [⟨(sweep (sortEvents (mkEvents C 0 wins)) none
                    ⟨[], initialGates C 0 0 wins, 0⟩).gates,
                 (C - (sweep (sortEvents (mkEvents C 0 wins)) none
                    ⟨[], initialGates C 0 0 wins, 0⟩).last_time) % 2 ^ 32⟩]
         else
           (sweep (sortEvents (mkEvents C 0 wins)) none
              ⟨[], initialGates C 0 0 wins, 0⟩).gcl) := rfl

end TasEstimator

namespace Claims

/-- Claim C1 (amended).  For gate windows starting inside the cycle, a
positive cycle length `C` below `2^32` (so no stored `uint32_t` duration
wraps), and at most 31 windows in total (so the 62 boundary events and the
final cycle-completing entry fit the 64-entry table), the GCL builder's
entry durations sum exactly to `C` and no two adjacent entries carry the
same gate mask; the adjacent-mask property is unconditional, but beyond
the entry cap the sweep silently truncates and the durations no longer
sum to `C` (see the counterexample). -/
theorem c1_gcl_sum_chain (wins : List (List TasEstimator.GateWindow)) (C : Nat)
    (hC : 0 < C) (hC32 : C < 2 ^ 32)
    (hstart : ∀ ws ∈ wins, ∀ w ∈ ws, w.start_offset_ns < C)
    (hcount : (wins.map List.length).sum ≤ 31) :
    ((TasEstimator.build_gcl wins C).map TasEstimator.GclEntry.time_ns).sum = C
    ∧ List.Chain' (fun a b => a.gate_states ≠ b.gate_states)
        (TasEstimator.build_gcl wins C) := by
  have hElen : (TasEstimator.mkEvents C 0 wins).length ≤ 62 := by
    rw [TasEstimator.mkEvents_length]
    omega
  have hEtime : ∀ ev ∈ TasEstimator.mkEvents C 0 wins, ev.time < C :=
    TasEstimator.mkEvents_time_lt C hC 0 wins hstart
  rw [TasEstimator.build_gcl_eq]
  set E := TasEstimator.sortEvents (TasEstimator.mkEvents C 0 wins) with hE
  have hSlen : E.length ≤ 62 := by
    rw [hE, TasEstimator.sortEvents_length]
    exact hElen
  have hStime : ∀ ev ∈ E, ev.time < C := fun ev hev =>
    hEtime ev (TasEstimator.sortEvents_subset _ ev (hE ▸ hev))
  have hStime32 : ∀ ev ∈ E, ev.time < 2 ^ 32 := fun ev hev =>
    lt_trans (hStime ev hev) hC32
  set s := TasEstimator.sweep E none ⟨[], TasEstimator.initialGates C 0 0 wins, 0⟩
    with hs
  have hsum : (s.gcl.map TasEstimator.GclEntry.time_ns).sum = s.last_time := by
    rw [hs]
    exact TasEstimator.sweep_sum E none _ hStime32 rfl
  have hlast : s.last_time < C := by
    rw [hs]
    exact TasEstimator.sweep_last_lt C E none _ hStime hC
  have hlen : s.gcl.length < TasEstimator.MAX_GCL_ENTRIES := by
    have h := TasEstimator.sweep_len E none
      ⟨[], TasEstimator.initialGates C 0 0 wins, 0⟩
    rw [← hs] at h
    have h64 : TasEstimator.MAX_GCL_ENTRIES = 64 := rfl
    simp at h
    omega
  rw [if_pos ⟨hlast, hlen⟩]
  have hmod : (C - s.last_time) % 2 ^ 32 = C - s.last_time :=
    Nat.mod_eq_of_lt (lt_of_le_of_lt (Nat.sub_le _ _) hC32)
  have hb : ((([] : List TasEstimator.GclEntry).map TasEstimator.GclEntry.time_ns).sum)
      + (((s.gcl ++ [(⟨s.gates, (C - s.last_time) % 2 ^ 32⟩ :
          TasEstimator.GclEntry)]).map TasEstimator.GclEntry.time_ns).sum) < 2 ^ 32 := by
    simp only [List.map_nil, List.sum_nil, List.map_append, List.sum_append,
      List.map_cons, List.sum_cons, Nat.zero_add, hmod]
    omega
  constructor
  · show ((TasEstimator.rleMergeAux []
        (s.gcl ++ [⟨s.gates, (C - s.last_time) % 2 ^ 32⟩])).map
          TasEstimator.GclEntry.time_ns).sum = C
    rw [TasEstimator.rleMergeAux_sum _ _ hb]
    simp only [List.map_nil, List.sum_nil, List.map_append, List.sum_append,
      List.map_cons, List.sum_cons, Nat.zero_add, hmod]
    omega
  · exact TasEstimator.rleMergeAux_chain
      (s.gcl ++ [⟨s.gates, (C - s.last_time) % 2 ^ 32⟩]) [] List.chain'_nil

/-- Witness for C1 at the two-class scenario windows (2 windows in total). -/
theorem c1_gcl_sum_chain_witness :
    ((TasEstimator.build_gcl
        [[(⟨0, 300, 0⟩ : TasEstimator.GateWindow)],
         [(⟨300, 700, 1⟩ : TasEstimator.GateWindow)]] 1000).map
      TasEstimator.GclEntry.time_ns).sum = 1000
    ∧ List.Chain' (fun a b => a.gate_states ≠ b.gate_states)
        (TasEstimator.build_gcl
          [[(⟨0, 300, 0⟩ : TasEstimator.GateWindow)],
           [(⟨300, 700, 1⟩ : TasEstimator.GateWindow)]] 1000) :=
  c1_gcl_sum_chain
    [[(⟨0, 300, 0⟩ : TasEstimator.GateWindow)],
     [(⟨300, 700, 1⟩ : TasEstimator.GateWindow)]] 1000
    (by decide) (by decide)
    (by intro ws hws; fin_cases hws <;> intro w hw <;> fin_cases hw <;> decide)
    (by decide)

end Claims

namespace Claims

set_option maxRecDepth 4000 in
set_option maxHeartbeats 1600000 in
/-- Counterexample to C1 as stated: 32 non-degenerate windows inside a
1000 ns cycle give 64 boundary events; the sweep stops at the 64-entry
cap, silently dropping the remaining boundaries, and the emitted durations
sum to 127 ns, not the 1000 ns cycle. -/
theorem c1_counterexample :
    ((TasEstimator.build_gcl Fixtures.manyWindows 1000).map
        TasEstimator.GclEntry.time_ns).sum ≠ 1000
    ∧ 0 < (1000 : Nat)
    ∧ (∀ ws ∈ Fixtures.manyWindows, ∀ w ∈ ws, w.start_offset_ns < 1000) := by
  have hE : TasEstimator.mkEvents 1000 0 Fixtures.manyWindows = Fixtures.manyEvents := by
    decide
  have hsorted : ∀ j, j < Fixtures.manyEvents.length → ∀ i, i ≤ j →
      TasEstimator.timeAt Fixtures.manyEvents i
        ≤ TasEstimator.timeAt Fixtures.manyEvents j := by decide
  have hsort : TasEstimator.sortEvents (TasEstimator.mkEvents 1000 0 Fixtures.manyWindows)
      = Fixtures.manyEvents := by
    rw [hE]
    exact TasEstimator.sortEvents_id Fixtures.manyEvents hsorted
  refine ⟨?_, by decide, ?_⟩
  · rw [TasEstimator.build_gcl_eq, hsort]
    decide
  · intro ws hws
    fin_cases hws <;> decide

end Claims
